import Mathlib

/-!
Verification development for the widgeteer remote UI-automation engine.

The definitions below are a shallow embedding of the C++ sources:
`Synchronizer.cpp`, `Server.cpp`, `ActionRecorder.cpp`, `CommandExecutor.cpp`,
`ElementFinder.cpp` and `Protocol.h`/`Protocol.cpp`.  Qt strings (`QString`)
are embedded as lists of characters, JSON documents (`QJsonValue` /
`QJsonObject`) as an inductive value type, and the live widget tree
(owned by the external Qt toolkit) as a finite forest of widget nodes
identified by their positions.
-/

namespace Widgeteer

/-- Embedding of `QString`: a list of characters. -/
abbrev QStr := List Char

/-- Turn a Lean string literal into the `QString` embedding. -/
def q (s : String) : QStr := s.toList

/-- `QString::startsWith`. -/
def qStartsWith (s pre : QStr) : Bool := List.isPrefixOf pre s

/-- `QString::indexOf(QChar)`: index of the first occurrence, `-1` if absent. -/
def qIndexOfAux (c : Char) : QStr → Int → Int
  | [], _ => -1
  | x :: xs, i => if x = c then i else qIndexOfAux c xs (i + 1)

/-- `QString::indexOf(QChar)` starting from index 0. -/
def qIndexOf (s : QStr) (c : Char) : Int := qIndexOfAux c s 0

/-- Embedding of a JSON value (`QJsonValue`).  A missing key is represented
by `Option.none` at the lookup level, matching `QJsonValue::Undefined`. -/
inductive JVal where
  | null
  | bool (b : Bool)
  | num (n : Int)
  | str (s : QStr)
  | arr (elems : List JVal)
  | obj (fields : List (QStr × JVal))

/-- Embedding of `QJsonObject`: an association list of key/value pairs. -/
abbrev JObj := List (QStr × JVal)

/-- `QJsonObject::value`, as an `Option` (missing key gives `none`,
modelling `QJsonValue::Undefined`). -/
def jGet? (o : JObj) (k : QStr) : Option JVal :=
  match o.find? (fun kv => kv.1 = k) with
  | some kv => some kv.2
  | none => none

/-- `QJsonObject::contains`. -/
def jContains (o : JObj) (k : QStr) : Bool := (jGet? o k).isSome

/-- `QJsonValue::toString(defaultValue)`: the string if the value is a
string, otherwise the default. -/
def jToString (v : Option JVal) (d : QStr) : QStr :=
  match v with
  | some (.str s) => s
  | _ => d

/-- `QJsonValue::toBool(defaultValue)`. -/
def jToBool (v : Option JVal) (d : Bool) : Bool :=
  match v with
  | some (.bool b) => b
  | _ => d

/-- `QJsonValue::toInt(defaultValue)` (numbers are embedded as integers,
so every embedded number is a whole number). -/
def jToInt (v : Option JVal) (d : Int) : Int :=
  match v with
  | some (.num n) => n
  | _ => d

/-- `QJsonValue::isString` of an optional value. -/
def jIsString (v : Option JVal) : Bool :=
  match v with
  | some (.str _) => true
  | _ => false

/-- `QJsonValue::toObject()`: the fields if the value is an object,
otherwise the empty object. -/
def jToObject (v : Option JVal) : JObj :=
  match v with
  | some (.obj fields) => fields
  | _ => []

/-- `QJsonValue::toArray()`. -/
def jToArray (v : Option JVal) : List JVal :=
  match v with
  | some (.arr elems) => elems
  | _ => []

/-! ## Protocol data structures (`Protocol.h`) -/

/-- `widgeteer::Command`. -/
structure Command where
  id : QStr := []
  name : QStr := []
  params : JObj := []
  options : JObj := []

/-- `widgeteer::Transaction`. -/
structure Transaction where
  id : QStr := []
  steps : List Command := []
  rollbackOnFailure : Bool := true

/-- `widgeteer::ErrorDetails`. -/
structure ErrorDetails where
  code : QStr := []
  message : QStr := []
  details : JObj := []

/-- `widgeteer::Response`. -/
structure Response where
  id : QStr := []
  success : Bool := false
  result : JObj := []
  error : ErrorDetails := {}
  durationMs : Int := 0

/-- `widgeteer::TransactionResponse`. -/
structure TransactionResponse where
  id : QStr := []
  success : Bool := false
  completedSteps : Int := 0
  totalSteps : Int := 0
  stepsResults : List JObj := []
  rollbackPerformed : Bool := false

/-- `Command::fromJson` (`Protocol.cpp`). -/
def Command.fromJson (json : JObj) : Command :=
  { id := jToString (jGet? json (q "id")) []
    name := jToString (jGet? json (q "command")) []
    params := jToObject (jGet? json (q "params"))
    options := jToObject (jGet? json (q "options")) }

/-- One step of `Transaction::fromJson` (`Protocol.cpp`): only `command`
and `params` are read from a step object. -/
def stepFromJson (stepObj : JObj) : Command :=
  { name := jToString (jGet? stepObj (q "command")) []
    params := jToObject (jGet? stepObj (q "params")) }

/-- `Transaction::fromJson` (`Protocol.cpp`). -/
def Transaction.fromJson (json : JObj) : Transaction :=
  { id := jToString (jGet? json (q "id")) []
    rollbackOnFailure := jToBool (jGet? json (q "rollback_on_failure")) true
    steps := (jToArray (jGet? json (q "steps"))).map (fun step => stepFromJson (jToObject (some step))) }

/-! ## Synchronizer (`Synchronizer.cpp`) -/

/-- `Synchronizer::Condition`. -/
inductive Condition where
  | Exists
  | NotExists
  | Visible
  | NotVisible
  | Enabled
  | Disabled
  | Focused
  | PropertyEquals
  | Stable
  | Idle
deriving DecidableEq

/-- `Synchronizer::parseCondition` (`Synchronizer.cpp` lines 145-189).
The two C++ out-parameters (`propertyName`, `propertyValue`) are returned
as an optional pair, set only in the `property:<name>=<value>` branch. -/
def parseCondition (condition : QStr) : Condition × Option (QStr × QStr) :=
  if condition = q "exists" then (.Exists, none)
  else if condition = q "not_exists" then (.NotExists, none)
  else if condition = q "visible" then (.Visible, none)
  else if condition = q "not_visible" then (.NotVisible, none)
  else if condition = q "enabled" then (.Enabled, none)
  else if condition = q "disabled" then (.Disabled, none)
  else if condition = q "focused" then (.Focused, none)
  else if condition = q "stable" then (.Stable, none)
  else if condition = q "idle" then (.Idle, none)
  else if qStartsWith condition (q "property:") then
    let propPart := condition.drop 9
    let eqIndex := qIndexOf propPart '='
    if eqIndex > 0 then
      (.PropertyEquals, some (propPart.take eqIndex.toNat, propPart.drop (eqIndex.toNat + 1)))
    else
      (.Exists, none)
  else (.Exists, none)

/-- `Synchronizer::WaitParams`. -/
structure WaitParams where
  target : QStr := []
  condition : Condition := .Exists
  propertyName : QStr := []
  propertyValue : QStr := []
  timeoutMs : Int := 5000
  pollIntervalMs : Int := 50
  stabilityMs : Int := 200
deriving DecidableEq

/-- Embedding of `QRect` by its two corner points; the default value is the
default-constructed (null) `QRect`. -/
structure Rect where
  x1 : Int := 0
  y1 : Int := 0
  x2 : Int := -1
  y2 : Int := -1
deriving DecidableEq

/-- Snapshot of one widget as seen by the synchronizer through the UI
toolkit: visibility, enabled state, focus, geometry and property values. -/
structure WidgetView where
  visible : Bool
  enabled : Bool
  focused : Bool
  geometry : Rect
  prop : QStr → Option QStr

/-- Snapshot of the world at one poll iteration: what
`finder_->find(target)` resolves to.  `none` models a null widget. -/
structure WorldSnapshot where
  findTarget : QStr → Option WidgetView

/-- `Synchronizer::checkCondition` (`Synchronizer.cpp` lines 191-234),
evaluated against one world snapshot. -/
def checkCondition (world : WorldSnapshot) (params : WaitParams) : Bool :=
  let widget := world.findTarget params.target
  match params.condition with
  | .Exists => widget.isSome
  | .NotExists => widget.isNone
  | .Visible =>
    match widget with
    | some w => w.visible
    | none => false
  | .NotVisible =>
    match widget with
    | some w => !w.visible
    | none => true
  | .Enabled =>
    match widget with
    | some w => w.enabled
    | none => false
  | .Disabled =>
    match widget with
    | some w => !w.enabled
    | none => false
  | .Focused =>
    match widget with
    | some w => w.focused
    | none => false
  | .PropertyEquals =>
    match widget with
    | some w =>
      if params.propertyName ≠ [] then
        match w.prop params.propertyName with
        | some v => v = params.propertyValue
        | none => false
      else false
    | none => false
  | .Stable => false
  | .Idle => true

/-- `Synchronizer::WaitResult`. -/
structure WaitResult where
  success : Bool := false
  elapsedMs : Int := 0
  error : QStr := []
deriving DecidableEq

/-- Environment of one `Synchronizer::wait` call: the world snapshot seen
at poll iteration `k` (i.e. after `k` calls to
`QCoreApplication::processEvents`), and the value of `timer.elapsed()`
at the top of iteration `k`. -/
structure WaitEnv where
  snapshotAt : Nat → WorldSnapshot
  elapsedAt : Nat → Int

/-- The `while` loop of `Synchronizer::wait` (`Synchronizer.cpp` lines
26-60).  `k` counts how many times the loop has yielded to
`processEvents`; the returned `Nat` is the number of yields performed
before returning.  `fuel` bounds the recursion; every theorem below
supplies enough fuel, and the fuel-exhaustion branch is never reached
in them. -/
def waitLoop (env : WaitEnv) (params : WaitParams) :
    Nat → Nat → Rect → Int → WaitResult × Nat
  | 0, k, _, _ =>
    ({ success := false, elapsedMs := env.elapsedAt k, error := q "fuel exhausted" }, k)
  | fuel + 1, k, lastGeometry, stableStartTime =>
    if env.elapsedAt k < params.timeoutMs then
      if params.condition = .Stable then
        match (env.snapshotAt k).findTarget params.target with
        | some w =>
          if w.geometry = lastGeometry then
            if stableStartTime = 0 then
              waitLoop env params fuel (k + 1) lastGeometry (env.elapsedAt k)
            else if env.elapsedAt k - stableStartTime ≥ params.stabilityMs then
              ({ success := true, elapsedMs := env.elapsedAt k, error := [] }, k)
            else
              waitLoop env params fuel (k + 1) lastGeometry stableStartTime
          else
            waitLoop env params fuel (k + 1) w.geometry 0
        | none => waitLoop env params fuel (k + 1) lastGeometry stableStartTime
      else if checkCondition (env.snapshotAt k) params then
        ({ success := true, elapsedMs := env.elapsedAt k, error := [] }, k)
      else
        waitLoop env params fuel (k + 1) lastGeometry stableStartTime
    else
      ({ success := false, elapsedMs := env.elapsedAt k,
         error := q "Timeout waiting for condition on '" ++ params.target ++ q "'" }, k)

/-- `Synchronizer::wait` (`Synchronizer.cpp` lines 17-66): the timer
starts at iteration 0, `lastGeometry` starts as a default `QRect` and
`stableStartTime` as 0. -/
def wait (env : WaitEnv) (params : WaitParams) (fuel : Nat) : WaitResult × Nat :=
  waitLoop env params fuel 0 {} 0

/-- The parameter-extraction part of `CommandExecutor::cmdWait`
(`CommandExecutor.cpp` lines 1648-1660): build `WaitParams` from the
JSON params, parsing the `condition` string (default `"exists"`). -/
def cmdWaitParams (params : JObj) : WaitParams :=
  let conditionStr := jToString (jGet? params (q "condition")) (q "exists")
  let parsed := parseCondition conditionStr
  { target := jToString (jGet? params (q "target")) []
    timeoutMs := jToInt (jGet? params (q "timeout_ms")) 5000
    pollIntervalMs := jToInt (jGet? params (q "poll_interval_ms")) 50
    stabilityMs := jToInt (jGet? params (q "stability_ms")) 200
    condition := parsed.1
    propertyName :=
      match parsed.2 with
      | some nv => nv.1
      | none => []
    propertyValue :=
      match parsed.2 with
      | some nv => nv.2
      | none => [] }

/-! ## Event subscription validation (`Server::handleSubscribe`,
`Server.cpp` lines 631-710) -/

/-- `EventBroadcaster::availableEventTypes` (`EventBroadcaster.cpp`
lines 126-129): the fixed set of event types. -/
def availableEventTypes : List QStr :=
  [q "widget_created", q "widget_destroyed", q "property_changed",
   q "focus_changed", q "command_executed"]

/-- Outcome of a subscribe request: either an error response is sent and
nothing is registered, or `broadcaster_->subscribe` is reached. -/
inductive SubscribeOutcome where
  | rejected (code message : QStr)
  | registered (eventType : QStr) (filter : JObj)

/-- `Server::handleSubscribe` (`Server.cpp` lines 631-710), after the
`event_type`/`filter` fields are extracted from the message.  The
`registered` outcome corresponds to reaching
`broadcaster_->subscribe(clientId, eventType, filter)`. -/
def handleSubscribe (eventType : QStr) (filter : JObj) : SubscribeOutcome :=
  if eventType = [] then
    .rejected (q "MISSING_PARAM") (q "Missing event_type parameter")
  else if ¬ (eventType ∈ availableEventTypes) then
    .rejected (q "INVALID_PARAMS") (q "Unsupported event_type: " ++ eventType)
  else if !filter.isEmpty then
    let hasTarget := jContains filter (q "target")
    let hasProperty := jContains filter (q "property")
    if eventType = q "property_changed" then
      if !hasTarget || !hasProperty || !jIsString (jGet? filter (q "target")) ||
          !jIsString (jGet? filter (q "property")) then
        .rejected (q "INVALID_PARAMS")
          (q "property_changed subscriptions require filter.target and filter.property")
      else
        .registered eventType filter
    else if hasProperty then
      .rejected (q "INVALID_PARAMS")
        (q "filter.property is only valid for property_changed subscriptions")
    else
      .registered eventType filter
  else
    .registered eventType filter

/-! ## Action recorder (`ActionRecorder.cpp`) -/

/-- `widgeteer::RecordedAction`. -/
structure RecordedAction where
  command : QStr := []
  params : JObj := []
  timestampIso : QStr := []
  durationMs : Int := 0

/-- `RecordedAction::toJson` (`ActionRecorder.cpp` lines 5-10): only
`command` and `params` are emitted. -/
def RecordedAction.toJson (a : RecordedAction) : JObj :=
  [(q "command", .str a.command), (q "params", .obj a.params)]

/-- State of an `ActionRecorder`. -/
structure RecorderState where
  recording : Bool := false
  actions : List RecordedAction := []
  startTimeIso : QStr := []

/-- `ActionRecorder::recordCommand`'s deny-list (`ActionRecorder.cpp`). -/
def skipCommands : List QStr :=
  [q "get_tree", q "find", q "describe", q "get_property", q "list_properties",
   q "get_actions", q "screenshot", q "exists", q "is_visible",
   q "list_objects", q "list_custom_commands"]

/-- `ActionRecorder::recordCommand` (`ActionRecorder.cpp`).  `nowIso` is
the current timestamp. -/
def recordCommand (r : RecorderState) (cmd : Command) (resp : Response)
    (nowIso : QStr) : RecorderState :=
  if ¬ r.recording then r
  else if cmd.name ∈ skipCommands then r
  else
    { r with actions := r.actions ++
        [{ command := cmd.name, params := cmd.params, timestampIso := nowIso,
           durationMs := resp.durationMs }] }

/-- `ActionRecorder::getRecording` (`ActionRecorder.cpp` lines 65-87). -/
def getRecording (r : RecorderState) : JObj :=
  let steps := r.actions.map (fun a => JVal.obj a.toJson)
  let test : JObj :=
    [(q "name", .str (q "Recorded Test")),
     (q "steps", .arr steps),
     (q "assertions", .arr [])]
  [(q "name", .str (q "Recorded Session")),
   (q "description", .str (q "Recorded on " ++ r.startTimeIso)),
   (q "tests", .arr [.obj test]),
   (q "setup", .arr []),
   (q "teardown", .arr [])]

/-- The first element of the `tests` array of an exported recording,
as an object (empty if absent). -/
def firstTest (doc : JObj) : JObj :=
  match jGet? doc (q "tests") with
  | some (.arr (t :: _)) => jToObject (some t)
  | _ => []

/-! ## Session server: deferred command execution (`Server.cpp`)

`Server::handleCommand` and `Server::handleTransaction` never execute
anything inline: they schedule a deferred task with
`QTimer::singleShot(0, ...)` and return.  The cooperative task queue is
modelled as an explicit `pending` list; `runCommandTask` /
`runTransactionTask` embed the scheduled lambdas.  A client socket is
identified by a number; `connectedSockets` models the key set of
`socketToClientId_`, from which `onClientDisconnected` removes the
socket. -/

/-- `ErrorDetails::toJson` (`Protocol.cpp`). -/
def ErrorDetails.toJson (e : ErrorDetails) : JObj :=
  [(q "code", .str e.code), (q "message", .str e.message)] ++
    (if e.details.isEmpty then [] else [(q "details", JVal.obj e.details)])

/-- `Response::toJson` (`Protocol.cpp`). -/
def Response.toJson (r : Response) : JObj :=
  [(q "id", .str r.id), (q "success", .bool r.success)] ++
    (if r.success then
      (if r.result.isEmpty then [] else [(q "result", JVal.obj r.result)])
    else [(q "error", JVal.obj r.error.toJson)]) ++
    (if r.durationMs > 0 then [(q "duration_ms", .num r.durationMs)] else [])

/-- `TransactionResponse::toJson` (`Protocol.cpp`). -/
def TransactionResponse.toJson (r : TransactionResponse) : JObj :=
  [(q "id", .str r.id), (q "success", .bool r.success),
   (q "completed_steps", .num r.completedSteps),
   (q "total_steps", .num r.totalSteps),
   (q "steps_results", .arr (r.stepsResults.map JVal.obj)),
   (q "rollback_performed", .bool r.rollbackPerformed)]

/-- A task scheduled on the cooperative loop by `QTimer::singleShot(0, ...)`. -/
inductive PendingTask where
  | commandTask (client : Nat) (cmd : Command)
  | transactionTask (client : Nat) (tx : Transaction)

/-- Server-side state touched by message handling and the deferred tasks. -/
structure ServerState where
  connectedSockets : List Nat := []
  pending : List PendingTask := []
  executedLog : List QStr := []
  recorder : RecorderState := {}
  broadcastEnabled : Bool := true
  hasCmdExecSubscribers : Bool := false
  events : List JObj := []
  sent : List (Nat × JObj) := []

/-- `Server::handleCommand` (`Server.cpp` lines 514-580): parse the
command and schedule its execution asynchronously; nothing is executed
and no response is sent inside the handler. -/
def handleCommand (s : ServerState) (client : Nat) (message : JObj) : ServerState :=
  { s with pending := s.pending ++ [.commandTask client (Command.fromJson message)] }

/-- `Server::handleTransaction` (`Server.cpp` lines 582-629): parse the
transaction and schedule its execution asynchronously. -/
def handleTransaction (s : ServerState) (client : Nat) (message : JObj) : ServerState :=
  { s with pending := s.pending ++ [.transactionTask client (Transaction.fromJson message)] }

/-- The deferred lambda scheduled by `Server::handleCommand`
(`Server.cpp` lines 525-580).  `exec` abstracts
`executor_->execute(cmd)` (run on the UI thread); `disconnectDuringExec`
models the originating socket being closed while the command executes
(execution pumps events, so the disconnect can be processed then);
`nowIso` is the wall-clock timestamp used by the recorder. -/
def runCommandTask (exec : Command → Response) (s : ServerState) (client : Nat)
    (cmd : Command) (disconnectDuringExec : Bool) (nowIso : QStr) : ServerState :=
  if client ∈ s.connectedSockets then
    let result := exec cmd
    let s1 := { s with
      executedLog := s.executedLog ++ [cmd.name]
      connectedSockets :=
        if disconnectDuringExec then s.connectedSockets.erase client
        else s.connectedSockets }
    let s2 :=
      if s1.recorder.recording then
        { s1 with recorder := recordCommand s1.recorder cmd result nowIso }
      else s1
    let s3 :=
      if s2.broadcastEnabled && s2.hasCmdExecSubscribers then
        { s2 with events := s2.events ++
            [[(q "command", .str cmd.name), (q "params", .obj cmd.params),
              (q "success", .bool result.success),
              (q "duration_ms", .num result.durationMs)]] }
      else s2
    if client ∈ s3.connectedSockets then
      { s3 with sent := s3.sent ++
          [(client, result.toJson ++ [(q "type", .str (q "response"))])] }
    else s3
  else s

/-- The deferred lambda scheduled by `Server::handleTransaction`
(`Server.cpp` lines 591-628); `execTx` abstracts
`executor_->execute(tx)`. -/
def runTransactionTask (execTx : Transaction → TransactionResponse) (s : ServerState)
    (client : Nat) (tx : Transaction) (disconnectDuringExec : Bool) : ServerState :=
  if client ∈ s.connectedSockets then
    let result := execTx tx
    let s1 := { s with
      executedLog := s.executedLog ++ [q "transaction:" ++ tx.id]
      connectedSockets :=
        if disconnectDuringExec then s.connectedSockets.erase client
        else s.connectedSockets }
    let s2 :=
      if s1.broadcastEnabled && s1.hasCmdExecSubscribers then
        { s1 with events := s1.events ++
            [[(q "command", .str (q "transaction")),
              (q "steps", .num tx.steps.length),
              (q "success", .bool result.success),
              (q "completed_steps", .num result.completedSteps)]] }
      else s1
    if client ∈ s2.connectedSockets then
      { s2 with sent := s2.sent ++
          [(client, result.toJson ++ [(q "type", .str (q "response"))])] }
    else s2
  else s

/-! ## The live widget tree and `ElementFinder` (`ElementFinder.cpp`)

The live Qt widget tree (owned by the external toolkit) is embedded as a
finite forest of nodes.  A widget is identified by its position: a list
of child indices, whose first entry indexes the top-level widget list
(`QApplication::topLevelWidgets`).  The embedding fixes a static forest:
no widget is created or deleted during the operations under study, so a
`QPointer` to a widget never goes null. -/

/-- The per-widget attributes the finder and the executor read through
the toolkit: object name, class name, accessible name, display text
(`text()`/`title()` of buttons/labels/group boxes), visibility, enabled
state and geometry. -/
structure WAttrs where
  objectName : QStr := []
  className : QStr := []
  accessibleName : QStr := []
  wtext : QStr := []
  visible : Bool := true
  enabled : Bool := true
  geometry : Rect := {}

/-- A node of the widget tree: attributes plus ordered children. -/
inductive WTree where
  | node (attrs : WAttrs) (children : List WTree)

/-- The attributes of a node. -/
def WTree.attrs : WTree → WAttrs
  | .node a _ => a

/-- The ordered children of a node (the `QObject::children()` list,
restricted to widgets). -/
def WTree.children : WTree → List WTree
  | .node _ c => c

/-- `QObject::objectName` of a node. -/
def WTree.objectName (t : WTree) : QStr := t.attrs.objectName

/-- `metaObject()->className()` of a node. -/
def WTree.className (t : WTree) : QStr := t.attrs.className

/-- A widget identity: the position of the node in the forest. -/
abbrev WId := List Nat

/-- Look a node up inside a tree by a (non-empty-step) position. -/
def getInTree : WTree → List Nat → Option WTree
  | t, [] => some t
  | t, i :: rest =>
    match t.children.get? i with
    | some c => getInTree c rest
    | none => none

/-- Look a node up in the forest by its position (`[]` is no widget). -/
def getW (F : List WTree) : WId → Option WTree
  | [] => none
  | i :: rest =>
    match F.get? i with
    | some t => getInTree t rest
    | none => none

/-- A fragment of the Qt class hierarchy: the ancestor classes of each
class name appearing in this development.  This models the behaviour of
`qobject_cast` for the widgets the embedding uses. -/
def qtBases (c : QStr) : List QStr :=
  if c = q "QPushButton" ∨ c = q "QCheckBox" ∨ c = q "QRadioButton" ∨ c = q "QToolButton" then
    [q "QAbstractButton", q "QWidget"]
  else if c = q "QAbstractButton" then [q "QWidget"]
  else if c = q "QLabel" then [q "QFrame", q "QWidget"]
  else if c = q "QGroupBox" ∨ c = q "QLineEdit" ∨ c = q "QDialog" ∨ c = q "QFrame" ∨
      c = q "QMainWindow" then
    [q "QWidget"]
  else []

/-- Whether `qobject_cast<base*>` succeeds on a widget of class `c`. -/
def isA (c base : QStr) : Bool := c = base || base ∈ qtBases c

/-- The preorder traversal of the proper descendants of a list of
siblings: each child, then its own descendants, then the next child.
This is the order produced by the recursive
`QObject::findChildren<QWidget*>` helper. -/
def preorderList : List WTree → WId → Nat → List (WId × WTree)
  | [], _, _ => []
  | .node a cs :: rest, p, i =>
    (p ++ [i], .node a cs) :: (preorderList cs (p ++ [i]) 0 ++ preorderList rest p (i + 1))

/-- `findChildren<QWidget*>(QString(), Qt::FindChildrenRecursively)` of
the node `t` at position `p`: all proper descendants in preorder. -/
def preorderTree (t : WTree) (p : WId) : List (WId × WTree) :=
  preorderList t.children p 0

/-- `findChildren<QWidget*>(QString(), Qt::FindDirectChildrenOnly)`:
the direct children with their positions. -/
def directList : List WTree → WId → Nat → List (WId × WTree)
  | [], _, _ => []
  | c :: rest, p, i => (p ++ [i], c) :: directList rest p (i + 1)

/-- First direct child satisfying a predicate (the first phase of the
`qt_qFindChild` helper). -/
def firstDirect : List WTree → WId → Nat → (WTree → Bool) → Option (WId × WTree)
  | [], _, _, _ => none
  | c :: rest, p, i, pred =>
    if pred c then some (p ++ [i], c) else firstDirect rest p (i + 1) pred

mutual
/-- The recursive single-result `QObject::findChild` helper on the node
`t` at position `p`: scan all direct children first, then recurse into
each child in order. -/
def qFindChildTree : WTree → WId → (WTree → Bool) → Option (WId × WTree)
  | .node _ cs, p, pred =>
    match firstDirect cs p 0 pred with
    | some r => some r
    | none => qFindChildList cs p 0 pred

/-- Recursion of the `QObject::findChild` helper over a sibling list. -/
def qFindChildList : List WTree → WId → Nat → (WTree → Bool) → Option (WId × WTree)
  | [], _, _, _ => none
  | c :: rest, p, i, pred =>
    match qFindChildTree c (p ++ [i]) pred with
    | some r => some r
    | none => qFindChildList rest p (i + 1) pred
end

/-- Value of a digit string (`QString::toInt` on the digits captured by
the index regular expression). -/
def digitsVal (ds : List Char) : Nat :=
  ds.foldl (fun acc c => acc * 10 + (c.toNat - '0'.toNat)) 0

/-- Match of the index notation regular expression `^(.+)\[(\d+)\]$`
used by `ElementFinder::findChild`: a greedy base capture followed by a
bracketed digit group at the end of the string. -/
def parseIndexSuffix (name : QStr) : Option (QStr × Nat) :=
  match name.reverse with
  | ']' :: rest1 =>
    let digitsRev := rest1.takeWhile Char.isDigit
    let rest2 := rest1.dropWhile Char.isDigit
    if digitsRev.isEmpty then none
    else
      match rest2 with
      | '[' :: baseRev =>
        if baseRev.isEmpty then none
        else some (baseRev.reverse, digitsVal digitsRev.reverse)
      | _ => none
  | _ => none

/-- The `count`/`index` scan of the index-notation branch of
`ElementFinder::findChild`: return the `index`-th widget (0-based among
matches) satisfying the predicate. -/
def nthMatch : List (WId × WTree) → (WTree → Bool) → Nat → Option (WId × WTree)
  | [], _, _ => none
  | c :: rest, pred, k =>
    if pred c.2 then
      if k = 0 then some c else nthMatch rest pred (k - 1)
    else nthMatch rest pred k

/-- Whether a widget matches a path segment base name: object name
first, class name second (`ElementFinder.cpp` lines 464-465). -/
def matchesBase (base : QStr) (t : WTree) : Bool :=
  t.objectName = base || t.className = base

/-- `ElementFinder::findChild` (`ElementFinder.cpp` lines 445-503) on
the node `t` at position `p`: index notation, wildcard `*`, then object
name (via the Qt `findChild` search), then class name (scan of the
`findChildren` list). -/
def efFindChild (t : WTree) (p : WId) (name : QStr) (recursive : Bool) : Option (WId × WTree) :=
  match parseIndexSuffix name with
  | some bi =>
    let children := if recursive then preorderTree t p else directList t.children p 0
    nthMatch children (matchesBase bi.1) bi.2
  | none =>
    if name = q "*" then
      let children := if recursive then preorderTree t p else directList t.children p 0
      children.head?
    else
      match
        (if recursive then qFindChildTree t p (fun c => c.objectName = name)
         else firstDirect t.children p 0 (fun c => c.objectName = name)) with
      | some r => some r
      | none =>
        let children := if recursive then preorderTree t p else directList t.children p 0
        children.find? (fun c => c.2.className = name)

/-- `QString::split('/', Qt::SkipEmptyParts)`. -/
def splitPathParts (path : QStr) : List QStr :=
  (path.splitOn '/').filter (fun part => !part.isEmpty)

/-- The first top-level widget whose object name or class name matches
the first path segment (`ElementFinder.cpp` lines 170-178). -/
def findTopLevel : List WTree → Nat → QStr → Option (Nat × WTree)
  | [], _, _ => none
  | t :: rest, i, firstPart =>
    if t.objectName = firstPart || t.className = firstPart then some (i, t)
    else findTopLevel rest (i + 1) firstPart

/-- The segment-navigation loop of `ElementFinder::byPath`
(`ElementFinder.cpp` lines 184-195): direct-child lookup first, then a
recursive search. -/
def navigatePath (t : WTree) (p : WId) : List QStr → Option (WId × WTree)
  | [] => some (p, t)
  | part :: rest =>
    match efFindChild t p part false with
    | some c => navigatePath c.2 c.1 rest
    | none =>
      match efFindChild t p part true with
      | some c => navigatePath c.2 c.1 rest
      | none => none

/-- `ElementFinder::byPath` (`ElementFinder.cpp` lines 157-198), as
called by `resolveSelector` (null root). -/
def byPath (F : List WTree) (path : QStr) : Option WId :=
  if path.isEmpty then none
  else
    match splitPathParts path with
    | [] => none
    | firstPart :: rest =>
      match findTopLevel F 0 firstPart with
      | some it =>
        match navigatePath it.2 [it.1] rest with
        | some r => some r.1
        | none => none
      | none => none

/-- `ElementFinder::byName` (`ElementFinder.cpp` lines 200-215) with the
default null root: per top-level widget, check its own object name, then
run the recursive `findChild` by name inside it. -/
def byNameAux : List WTree → Nat → QStr → Option WId
  | [], _, _ => none
  | t :: rest, i, name =>
    if t.objectName = name then some [i]
    else
      match qFindChildTree t [i] (fun c => c.objectName = name) with
      | some r => some r.1
      | none => byNameAux rest (i + 1) name

/-- `ElementFinder::byName` from the top-level widget list. -/
def byName (F : List WTree) (name : QStr) : Option WId := byNameAux F 0 name

/-- `ElementFinder::byClass` (`ElementFinder.cpp` lines 217-247) with
the default null root. -/
def byClassAux : List WTree → Nat → QStr → Option WId
  | [], _, _ => none
  | t :: rest, i, className =>
    if t.className = className then some [i]
    else
      match (preorderTree t [i]).find? (fun c => c.2.className = className) with
      | some r => some r.1
      | none => byClassAux rest (i + 1) className

/-- `ElementFinder::byClass` from the top-level widget list. -/
def byClass (F : List WTree) (className : QStr) : Option WId := byClassAux F 0 className

/-- The `hasText` test of `ElementFinder::byText`: the cast chain
`QAbstractButton` / `QLabel` / `QGroupBox`, comparing `text()` (resp.
`title()`) with the wanted text. -/
def widgetMatchesText (t : WTree) (text : QStr) : Bool :=
  if isA t.className (q "QAbstractButton") then t.attrs.wtext = text
  else if isA t.className (q "QLabel") then t.attrs.wtext = text
  else if isA t.className (q "QGroupBox") then t.attrs.wtext = text
  else false

/-- The search list of `byText`/`byAccessible` with the default null
root: each top-level widget followed by all its descendants. -/
def searchListAux : List WTree → Nat → List (WId × WTree)
  | [], _ => []
  | t :: rest, i => ([i], t) :: (preorderTree t [i] ++ searchListAux rest (i + 1))

/-- The full search list over the forest. -/
def searchListAll (F : List WTree) : List (WId × WTree) := searchListAux F 0

/-- `ElementFinder::byText` (`ElementFinder.cpp` lines 249-280) with the
default null root. -/
def byText (F : List WTree) (text : QStr) : Option WId :=
  ((searchListAll F).find? (fun c => widgetMatchesText c.2 text)).map (fun c => c.1)

/-- `ElementFinder::byAccessible` (`ElementFinder.cpp` lines 282-308)
with the default null root; the accessible interface name is the
`accessibleName` attribute of the node. -/
def byAccessible (F : List WTree) (name : QStr) : Option WId :=
  ((searchListAll F).find? (fun c => c.2.attrs.accessibleName = name)).map (fun c => c.1)

/-- External Qt state consulted by the finder:
`ElementFinder::byDialogRole` resolves a role name through
`QApplication::activeWindow()` and its `QDialogButtonBox`
(`ElementFinder.cpp` lines 310-379); that lookup lives entirely in the
toolkit and is abstracted as a function from the (lower-cased) role
name to the matched button, if any. -/
structure FinderEnv where
  dialogButtonForRole : QStr → Option WId

/-- `QString::toLower` (ASCII model). -/
def qToLower (s : QStr) : QStr := s.map Char.toLower

/-- Outcome of `ElementFinder::resolveSelector`: the resolved widget, or
the `errorOut` message. -/
inductive ResolveOutcome where
  | ok (w : WId)
  | err (msg : QStr)
deriving DecidableEq

/-- `ElementFinder::resolveSelector` (`ElementFinder.cpp` lines
381-439): ordered scheme-prefix checks, then semantic role, then path. -/
def resolveSelector (env : FinderEnv) (F : List WTree) (selector : QStr) : ResolveOutcome :=
  if selector.isEmpty then .err (q "Empty selector")
  else if qStartsWith selector (q "@name:") then
    let name := selector.drop 6
    match byName F name with
    | some w => .ok w
    | none => .err (q "No widget with objectName '" ++ name ++ q "'")
  else if qStartsWith selector (q "@class:") then
    let className := selector.drop 7
    match byClass F className with
    | some w => .ok w
    | none => .err (q "No widget with class '" ++ className ++ q "'")
  else if qStartsWith selector (q "@text:") then
    let text := selector.drop 6
    match byText F text with
    | some w => .ok w
    | none => .err (q "No widget with text '" ++ text ++ q "'")
  else if qStartsWith selector (q "@accessible:") then
    let name := selector.drop 12
    match byAccessible F name with
    | some w => .ok w
    | none => .err (q "No widget with accessible name '" ++ name ++ q "'")
  else if qStartsWith selector (q "@") then
    let role := qToLower (selector.drop 1)
    match env.dialogButtonForRole role with
    | some w => .ok w
    | none => .err (q "No dialog button with role '" ++ role ++ q "' found in active window")
  else
    match byPath F selector with
    | some w => .ok w
    | none => .err (q "No widget matching path '" ++ selector ++ q "'")

/-- `Nat` rendering used by the `ClassName[index]` disambiguation. -/
def natToQStr (n : Nat) : QStr := Nat.toDigits 10 n

/-- The `index`/`count` scan of `ElementFinder::pathFor`
(`ElementFinder.cpp` lines 125-136): among the direct siblings, the
position of the sibling at child-index `myIdx` within those sharing the
class name, and the total count of that class. -/
def classIndexCountAux : List WTree → Nat → Nat → QStr → Nat → Nat → Nat × Nat
  | [], _, _, _, idx, count => (idx, count)
  | c :: rest, i, myIdx, cls, idx, count =>
    if c.className = cls then
      classIndexCountAux rest (i + 1) myIdx cls (if i = myIdx then count else idx) (count + 1)
    else classIndexCountAux rest (i + 1) myIdx cls idx count

/-- The name `ElementFinder::pathFor` emits for the node at position
`p` (`ElementFinder.cpp` lines 118-145): the object name if non-empty,
else the class name, disambiguated as `ClassName[index]` when several
direct siblings share the class. -/
def pathSegmentName (F : List WTree) (p : WId) : QStr :=
  match getW F p with
  | none => []
  | some t =>
    if !t.objectName.isEmpty then t.objectName
    else
      let className := t.className
      match p with
      | [] => className
      | [_] => className
      | _ =>
        match getW F p.dropLast, p.getLast? with
        | some parent, some myIdx =>
          let ic := classIndexCountAux parent.children 0 myIdx className 0 0
          if ic.2 > 1 then className ++ [ '[' ] ++ natToQStr ic.1 ++ [ ']' ]
          else className
        | _, _ => className

/-- The segment names of `ElementFinder::pathFor` along the ancestor
chain below the position `sofar` (the loop of `ElementFinder.cpp` lines
115-148 builds exactly these names, prepending as it walks up). -/
def pathForNamesAux (F : List WTree) : WId → List Nat → List QStr
  | _, [] => []
  | sofar, j :: rest => pathSegmentName F (sofar ++ [j]) :: pathForNamesAux F (sofar ++ [j]) rest

/-- The segment names of `ElementFinder::pathFor` from the root down to
the node at `p`. -/
def pathForNames (F : List WTree) (p : WId) : List QStr := pathForNamesAux F [] p

/-- `ElementFinder::pathFor` (`ElementFinder.cpp` lines 110-151): join
the ancestor segment names with `/`. -/
def pathFor (F : List WTree) (p : WId) : QStr :=
  List.intercalate (q "/") (pathForNames F p)

/-- The finder's resolution cache (`cache_` in `ElementFinder.h`):
selector string to widget.  In the static forest a cached widget is
never deleted, so a stored `QPointer` is always live. -/
abbrev Cache := List (QStr × WId)

/-- `ElementFinder::FindResult`. -/
structure FindResult where
  widget : Option WId := none
  resolvedPath : QStr := []
  error : QStr := []
deriving DecidableEq

/-- `ElementFinder::find` (`ElementFinder.cpp` lines 17-44): consult the
cache (a hit returns the cached widget with the selector as resolved
path), otherwise resolve, compute the path and populate the cache. -/
def find (env : FinderEnv) (F : List WTree) (cache : Cache) (selector : QStr) :
    FindResult × Cache :=
  match cache.find? (fun kv => kv.1 = selector) with
  | some kv => ({ widget := some kv.2, resolvedPath := selector }, cache)
  | none =>
    match resolveSelector env F selector with
    | .ok w => ({ widget := some w, resolvedPath := pathFor F w }, cache ++ [(selector, w)])
    | .err e => ({ error := e }, cache)

/-- Selector dispatch as worded by the specification (section 4.1):
check the scheme prefixes in the fixed order `@name:`, `@class:`,
`@text:`, `@accessible:`, then any other string starting with `@` as a
semantic dialog-button role, else treat the string as a slash-separated
path.  This is the specification-side counterpart of
`resolveSelector`, used to settle the refinement claim about dispatch
order. -/
def specResolveSelector (env : FinderEnv) (F : List WTree) (selector : QStr) : ResolveOutcome :=
  if qStartsWith selector (q "@name:") then
    let name := selector.drop 6
    match byName F name with
    | some w => .ok w
    | none => .err (q "No widget with objectName '" ++ name ++ q "'")
  else if qStartsWith selector (q "@class:") then
    let className := selector.drop 7
    match byClass F className with
    | some w => .ok w
    | none => .err (q "No widget with class '" ++ className ++ q "'")
  else if qStartsWith selector (q "@text:") then
    let text := selector.drop 6
    match byText F text with
    | some w => .ok w
    | none => .err (q "No widget with text '" ++ text ++ q "'")
  else if qStartsWith selector (q "@accessible:") then
    let name := selector.drop 12
    match byAccessible F name with
    | some w => .ok w
    | none => .err (q "No widget with accessible name '" ++ name ++ q "'")
  else if qStartsWith selector (q "@") then
    let role := qToLower (selector.drop 1)
    match env.dialogButtonForRole role with
    | some w => .ok w
    | none => .err (q "No dialog button with role '" ++ role ++ q "' found in active window")
  else
    match byPath F selector with
    | some w => .ok w
    | none => .err (q "No widget matching path '" ++ selector ++ q "'")

/-! ## Command executor (`CommandExecutor.cpp`)

The executor runs against the static forest.  Mutable widget state
(dynamic and declared Qt properties, reached through
`QObject::property`/`setProperty`) is a property store; the keyboard
focus and the pending asynchronously-scheduled input events are also
part of the mutable UI state.  Commands whose effects live entirely in
toolkit internals that no claim touches (`get_tree`, `drag`, `invoke`,
`set_value`, ... ) are abstracted as pure handler functions in the
environment; none of them records an undo entry, matching the source,
where `recordUndo` is called only from `cmdSetProperty`. -/

/-- The error-code constants of `Protocol.h` (namespace `ErrorCode`). -/
def ecElementNotFound : QStr := q "ELEMENT_NOT_FOUND"

/-- `ErrorCode::PropertyReadOnly`. -/
def ecPropertyReadOnly : QStr := q "PROPERTY_READ_ONLY"

/-- `ErrorCode::InvalidCommand`. -/
def ecInvalidCommand : QStr := q "INVALID_COMMAND"

/-- `ErrorCode::InvalidParams`. -/
def ecInvalidParams : QStr := q "INVALID_PARAMS"

/-- `ErrorCode::InvocationFailed`. -/
def ecInvocationFailed : QStr := q "INVOCATION_FAILED"

/-- An error result object `{ error: { code, message } }` as built by the
command handlers. -/
def errObj (code message : QStr) : JObj :=
  [(q "error", .obj [(q "code", .str code), (q "message", .str message)])]

/-- The store of widget property values: `QObject::property` reads it,
`QObject::setProperty` writes it.  A property that was never set reads
as an invalid `QVariant`, embedded as `JVal.null`. -/
abbrev PropStore := WId → QStr → JVal

/-- Mutable UI-side state touched by the executor: the property store,
the keyboard focus, the input events scheduled (but not yet delivered)
by the injector, and the finder's resolution cache. -/
structure UIState where
  props : PropStore
  focused : Option WId := none
  scheduledInput : List (WId × QStr) := []
  cache : Cache := []

/-- An entry of the undo stack: the data captured by the restore lambda
recorded by `cmdSetProperty` (widget, property name, old value), plus
its description string. -/
structure UndoEntry where
  widget : WId
  propName : QStr
  oldValue : JVal
  description : QStr

/-- Executor state: the UI state, the LIFO undo stack (top at the head)
and the log of dispatched command names (one entry per `dispatch`
call, i.e. per attempted step). -/
structure ExecState where
  ui : UIState
  undoStack : List UndoEntry := []
  dispatchLog : List QStr := []

/-- The toolkit-side environment the concretely-modelled command
handlers read: the forest, the finder environment, and which declared
properties reject writes (`setProperty` returning false). -/
structure ToolkitEnv where
  forest : List WTree
  finderEnv : FinderEnv
  readOnlyProp : WId → QStr → Bool

/-- Environment of the executor: the toolkit environment, the
caller-registered custom commands (a null pointer is `none`), and the
abstract handlers for the built-in commands whose effects are not
tracked by this model. -/
structure ExecEnv where
  tk : ToolkitEnv
  customCommands : Option (List (QStr × (JObj → Except QStr JObj)))
  hGetTree : JObj → JObj
  hFind : JObj → JObj
  hDescribe : JObj → JObj
  hGetProperty : JObj → JObj
  hListProperties : JObj → JObj
  hGetActions : JObj → JObj
  hGetFormFields : JObj → JObj
  hDoubleClick : JObj → JObj
  hRightClick : JObj → JObj
  hKey : JObj → JObj
  hKeySequence : JObj → JObj
  hDrag : JObj → JObj
  hScroll : JObj → JObj
  hHover : JObj → JObj
  hInvoke : JObj → JObj
  hSetValue : JObj → JObj
  hScreenshot : JObj → JObj
  hAssert : JObj → JObj
  hWait : JObj → JObj
  hWaitIdle : JObj → JObj
  hWaitSignal : JObj → JObj
  hSleep : JObj → JObj
  hQuit : JObj → JObj
  hCall : JObj → JObj
  hListObjects : JObj → JObj
  hListCustomCommands : JObj → JObj

/-- `QObject::setProperty` on the store: no effect (and failure reported
to the caller) on a read-only declared property, otherwise the value is
stored. -/
def setPropStore (tk : ToolkitEnv) (pr : PropStore) (w : WId) (name : QStr) (v : JVal) :
    PropStore :=
  if tk.readOnlyProp w name then pr
  else fun w2 n2 => if w2 = w ∧ n2 = name then v else pr w2 n2

/-- Run one recorded undo lambda on the property store: the captured
`QPointer` is live (static forest), so it calls
`setProperty(propName, oldValue)`. -/
def applyUndoProps (tk : ToolkitEnv) (pr : PropStore) (u : UndoEntry) : PropStore :=
  setPropStore tk pr u.widget u.propName u.oldValue

/-- `CommandExecutor::rollback` (`CommandExecutor.cpp` lines 1729-1734):
pop and run every undo entry, most recent first. -/
def rollback (tk : ToolkitEnv) (s : ExecState) : ExecState :=
  { s with
    ui := { s.ui with
      props := s.undoStack.foldl (fun pr u => applyUndoProps tk pr u) s.ui.props }
    undoStack := [] }

/-- `CommandExecutor::clearUndoStack`. -/
def clearUndoStack (s : ExecState) : ExecState := { s with undoStack := [] }

/-- `CommandExecutor::recordUndo`: push onto the LIFO stack. -/
def recordUndo (s : ExecState) (u : UndoEntry) : ExecState :=
  { s with undoStack := u :: s.undoStack }

/-- `CommandExecutor::resolveTarget` (`CommandExecutor.cpp` lines
260-272): read the `target` parameter and run the finder (which may
populate its cache).  Returns the widget or the error message, plus the
updated UI state. -/
def resolveTarget (tk : ToolkitEnv) (ui : UIState) (params : JObj) :
    (Option WId × QStr) × UIState :=
  let target := jToString (jGet? params (q "target")) []
  if target.isEmpty then ((none, q "Missing 'target' parameter"), ui)
  else
    let rc := find tk.finderEnv tk.forest ui.cache target
    match rc.1.widget with
    | some w => ((some w, []), { ui with cache := rc.2 })
    | none => ((none, rc.1.error), { ui with cache := rc.2 })

/-- `EventInjector::ensureVisible` (`EventInjector.cpp` lines 319-336)
on a widget of the forest. -/
def ensureVisible (tk : ToolkitEnv) (w : WId) : Option QStr :=
  match getW tk.forest w with
  | none => some (q "Target widget is null")
  | some t =>
    if !t.attrs.visible then some (q "Target widget is not visible")
    else if !t.attrs.enabled then some (q "Target widget is not enabled")
    else none

/-- `CommandExecutor::cmdSetProperty` (`CommandExecutor.cpp` lines
1025-1075): resolve the target, validate the property name, record an
undo entry restoring the old value, then set the property. -/
def cmdSetProperty (tk : ToolkitEnv) (s : ExecState) (params : JObj) : JObj × ExecState :=
  let r := resolveTarget tk s.ui params
  let s := { s with ui := r.2 }
  match r.1.1 with
  | none => (errObj ecElementNotFound r.1.2, s)
  | some w =>
    let propertyName := jToString (jGet? params (q "property")) []
    if propertyName.isEmpty then
      (errObj ecInvalidParams (q "Missing 'property' parameter"), s)
    else
      let value := (jGet? params (q "value")).getD .null
      let oldValue := s.ui.props w propertyName
      let s := recordUndo s
        { widget := w, propName := propertyName, oldValue := oldValue,
          description := q "Restore " ++ propertyName }
      if tk.readOnlyProp w propertyName then
        (errObj ecPropertyReadOnly (q "Failed to set property '" ++ propertyName ++ q "'"), s)
      else
        ([(q "property_set", .bool true), (q "property", .str propertyName)],
         { s with ui := { s.ui with props := setPropStore tk s.ui.props w propertyName value } })

/-- `CommandExecutor::cmdClick` (`CommandExecutor.cpp` lines 682-727):
resolve the target, run `EventInjector::click`, which checks
`ensureVisible` and then only schedules the click via
`QTimer::singleShot(10, ...)` — no UI state changes before the handler
returns — and answer with the target geometry. -/
def cmdClick (tk : ToolkitEnv) (s : ExecState) (params : JObj) : JObj × ExecState :=
  let r := resolveTarget tk s.ui params
  let s := { s with ui := r.2 }
  match r.1.1 with
  | none => (errObj ecElementNotFound r.1.2, s)
  | some w =>
    match ensureVisible tk w with
    | some msg => (errObj ecInvocationFailed msg, s)
    | none =>
      let geom :=
        match getW tk.forest w with
        | some t => t.attrs.geometry
        | none => {}
      ([(q "clicked", .bool true),
        (q "target_geometry", .obj
          [(q "x", .num geom.x1), (q "y", .num geom.y1),
           (q "width", .num (geom.x2 - geom.x1 + 1)),
           (q "height", .num (geom.y2 - geom.y1 + 1))])],
       { s with ui := { s.ui with scheduledInput := s.ui.scheduledInput ++ [(w, q "click")] } })

/-- The effect of typing into a text-entry widget, as produced by
`QTest::keyClicks`: the characters are inserted at the end-of-text
cursor position. -/
def typeEffect (old typed : QStr) : QStr := old ++ typed

/-- `CommandExecutor::cmdType` (`CommandExecutor.cpp` lines 782-819):
resolve, validate `text`, optionally clear via Ctrl+A/Delete key
clicks (whose injector results are ignored by the source), then run
`EventInjector::type`, which checks `ensureVisible`, focuses the widget
and types the text. -/
def cmdType (tk : ToolkitEnv) (s : ExecState) (params : JObj) : JObj × ExecState :=
  let r := resolveTarget tk s.ui params
  let s := { s with ui := r.2 }
  match r.1.1 with
  | none => (errObj ecElementNotFound r.1.2, s)
  | some w =>
    let text := jToString (jGet? params (q "text")) []
    if text.isEmpty then
      (errObj ecInvalidParams (q "Missing 'text' parameter"), s)
    else
      let clearFirst := jToBool (jGet? params (q "clear_first")) false
      let s :=
        if clearFirst ∧ ensureVisible tk w = none then
          { s with ui := { s.ui with
              props := fun w2 n2 =>
                if w2 = w ∧ n2 = q "text" then .str [] else s.ui.props w2 n2 } }
        else s
      match ensureVisible tk w with
      | some msg => (errObj ecInvocationFailed msg, s)
      | none =>
        let s :=
          if s.ui.focused = some w then s
          else { s with ui := { s.ui with focused := some w } }
        let oldText :=
          match s.ui.props w (q "text") with
          | .str t => t
          | _ => []
        ([(q "typed", .bool true), (q "text", .str text)],
         { s with ui := { s.ui with
             props := fun w2 n2 =>
               if w2 = w ∧ n2 = q "text" then .str (typeEffect oldText text)
               else s.ui.props w2 n2 } })

/-- `CommandExecutor::cmdFocus` (`CommandExecutor.cpp` lines 1003-1022)
with `EventInjector::setFocus` (`EventInjector.cpp` lines 273-305):
visibility check, then the focus moves to the target. -/
def cmdFocus (tk : ToolkitEnv) (s : ExecState) (params : JObj) : JObj × ExecState :=
  let r := resolveTarget tk s.ui params
  let s := { s with ui := r.2 }
  match r.1.1 with
  | none => (errObj ecElementNotFound r.1.2, s)
  | some w =>
    match getW tk.forest w with
    | none => (errObj ecInvocationFailed (q "Target widget is null"), s)
    | some t =>
      if !t.attrs.visible then
        (errObj ecInvocationFailed (q "Target widget is not visible"), s)
      else
        ([(q "focused", .bool true)],
         { s with ui := { s.ui with focused := some w } })

/-- `CommandExecutor::cmdExists` (`CommandExecutor.cpp` lines 1626-1631):
a plain finder call, no error even when nothing matches. -/
def cmdExists (tk : ToolkitEnv) (s : ExecState) (params : JObj) : JObj × ExecState :=
  let target := jToString (jGet? params (q "target")) []
  let rc := find tk.finderEnv tk.forest s.ui.cache target
  ([(q "exists", .bool rc.1.widget.isSome), (q "target", .str target)],
   { s with ui := { s.ui with cache := rc.2 } })

/-- `CommandExecutor::cmdIsVisible` (`CommandExecutor.cpp` lines
1636-1644): unresolved targets answer `visible:false, exists:false`. -/
def cmdIsVisible (tk : ToolkitEnv) (s : ExecState) (params : JObj) : JObj × ExecState :=
  let r := resolveTarget tk s.ui params
  let s := { s with ui := r.2 }
  match r.1.1 with
  | none => ([(q "visible", .bool false), (q "exists", .bool false)], s)
  | some w =>
    let vis :=
      match getW tk.forest w with
      | some t => t.attrs.visible
      | none => false
    ([(q "visible", .bool vis), (q "exists", .bool true)], s)

/-- The names of the built-in command table, in the order of the
`dispatch` chain (`CommandExecutor.cpp` lines 131-238). -/
def builtinNames : List QStr :=
  [q "get_tree", q "find", q "describe", q "get_property", q "list_properties",
   q "get_actions", q "get_form_fields", q "click", q "double_click", q "right_click",
   q "type", q "key", q "key_sequence", q "drag", q "scroll", q "hover", q "focus",
   q "set_property", q "invoke", q "set_value", q "screenshot", q "assert",
   q "exists", q "is_visible", q "wait", q "wait_idle", q "wait_signal", q "sleep",
   q "quit", q "call", q "list_objects", q "list_custom_commands"]

/-- `CommandExecutor::dispatch` (`CommandExecutor.cpp` lines 131-258):
built-in command table first (exact name, in source order), then
caller-registered custom handlers (exceptions converted to
`INVOCATION_FAILED`), else `INVALID_COMMAND`.  Every call appends the
command name to the dispatch log (the step was attempted). -/
def dispatch (env : ExecEnv) (s0 : ExecState) (command : QStr) (params : JObj) :
    JObj × ExecState :=
  let s := { s0 with dispatchLog := s0.dispatchLog ++ [command] }
  if command = q "get_tree" then (env.hGetTree params, s)
  else if command = q "find" then (env.hFind params, s)
  else if command = q "describe" then (env.hDescribe params, s)
  else if command = q "get_property" then (env.hGetProperty params, s)
  else if command = q "list_properties" then (env.hListProperties params, s)
  else if command = q "get_actions" then (env.hGetActions params, s)
  else if command = q "get_form_fields" then (env.hGetFormFields params, s)
  else if command = q "click" then cmdClick env.tk s params
  else if command = q "double_click" then (env.hDoubleClick params, s)
  else if command = q "right_click" then (env.hRightClick params, s)
  else if command = q "type" then cmdType env.tk s params
  else if command = q "key" then (env.hKey params, s)
  else if command = q "key_sequence" then (env.hKeySequence params, s)
  else if command = q "drag" then (env.hDrag params, s)
  else if command = q "scroll" then (env.hScroll params, s)
  else if command = q "hover" then (env.hHover params, s)
  else if command = q "focus" then cmdFocus env.tk s params
  else if command = q "set_property" then cmdSetProperty env.tk s params
  else if command = q "invoke" then (env.hInvoke params, s)
  else if command = q "set_value" then (env.hSetValue params, s)
  else if command = q "screenshot" then (env.hScreenshot params, s)
  else if command = q "assert" then (env.hAssert params, s)
  else if command = q "exists" then cmdExists env.tk s params
  else if command = q "is_visible" then cmdIsVisible env.tk s params
  else if command = q "wait" then (env.hWait params, s)
  else if command = q "wait_idle" then (env.hWaitIdle params, s)
  else if command = q "wait_signal" then (env.hWaitSignal params, s)
  else if command = q "sleep" then (env.hSleep params, s)
  else if command = q "quit" then (env.hQuit params, s)
  else if command = q "call" then (env.hCall params, s)
  else if command = q "list_objects" then (env.hListObjects params, s)
  else if command = q "list_custom_commands" then (env.hListCustomCommands params, s)
  else
    match env.customCommands with
    | some commands =>
      match commands.find? (fun kv => kv.1 = command) with
      | some kv =>
        match kv.2 params with
        | .ok result => (result, s)
        | .error msg =>
          (errObj ecInvocationFailed
            (q "Custom command '" ++ command ++ q "' threw exception: " ++ msg), s)
      | none => (errObj ecInvalidCommand (q "Unknown command: " ++ command), s)
    | none => (errObj ecInvalidCommand (q "Unknown command: " ++ command), s)

/-- The custom-handler lookup performed at the end of `dispatch`
(`customCommands_ && customCommands_->contains(command)`). -/
def customLookup (env : ExecEnv) (command : QStr) : Option (JObj → Except QStr JObj) :=
  match env.customCommands with
  | some commands => (commands.find? (fun kv => kv.1 = command)).map (fun kv => kv.2)
  | none => none

/-- The step loop of `CommandExecutor::execute(Transaction)`
(`CommandExecutor.cpp` lines 95-128): run the remaining steps starting
at index `i` with the already-accumulated step results. -/
def execSteps (env : ExecEnv) (rollbackOnFailure : Bool) (txId : QStr) (total : Nat) :
    ExecState → List Command → Nat → List JObj → TransactionResponse × ExecState
  | s, [], _, acc =>
    ({ id := txId, success := true, completedSteps := (total : Int),
       totalSteps := (total : Int), stepsResults := acc, rollbackPerformed := false },
     clearUndoStack s)
  | s, step :: rest, i, acc =>
    let d := dispatch env s step.name step.params
    if jContains d.1 (q "error") then
      let stepResponse : JObj :=
        [(q "step", .num i), (q "command", .str step.name), (q "success", .bool false),
         (q "error", .obj (jToObject (jGet? d.1 (q "error"))))]
      let s2 := if rollbackOnFailure then rollback env.tk d.2 else d.2
      ({ id := txId, success := false, completedSteps := (i : Int),
         totalSteps := (total : Int), stepsResults := acc ++ [stepResponse],
         rollbackPerformed := rollbackOnFailure }, s2)
    else
      execSteps env rollbackOnFailure txId total d.2 rest (i + 1)
        (acc ++ [[(q "step", .num i), (q "command", .str step.name),
                  (q "success", .bool true)]])

/-- `CommandExecutor::execute(Transaction)` (`CommandExecutor.cpp` lines
88-129): clear the undo stack, run the steps strictly sequentially,
stop at the first failure (rolling back when requested). -/
def executeTransaction (env : ExecEnv) (s : ExecState) (tx : Transaction) :
    TransactionResponse × ExecState :=
  execSteps env tx.rollbackOnFailure tx.id tx.steps.length (clearUndoStack s) tx.steps 0 []

/-! ## Concrete instances used by witnesses and counterexamples -/

/-- A wait environment in which no target ever resolves and the clock
advances by the poll interval per yield. -/
def waitDemoEnv : WaitEnv :=
  { snapshotAt := fun _ => { findTarget := fun _ => none }
    elapsedAt := fun k => 50 * k }

/-- A two-widget demo forest: a main window containing one line edit. -/
def demoForest : List WTree :=
  [.node { objectName := q "win", className := q "QMainWindow" }
    [.node { objectName := q "testLineEdit", className := q "QLineEdit" } []]]

/-- Toolkit environment over the demo forest: no dialog buttons, no
read-only properties. -/
def demoTk : ToolkitEnv :=
  { forest := demoForest
    finderEnv := { dialogButtonForRole := fun _ => none }
    readOnlyProp := fun _ _ => false }

/-- Demo executor environment: trivial abstract handlers and three
custom commands, one of which is registered under the built-in name
`click`. -/
def demoEnv : ExecEnv :=
  { tk := demoTk
    customCommands := some
      [(q "frob", fun _ => .ok [(q "done", JVal.bool true)]),
       (q "click", fun _ => .ok [(q "hijacked", JVal.bool true)]),
       (q "boom", fun _ => .error (q "kaboom"))]
    hGetTree := fun _ => []
    hFind := fun _ => []
    hDescribe := fun _ => []
    hGetProperty := fun _ => []
    hListProperties := fun _ => []
    hGetActions := fun _ => []
    hGetFormFields := fun _ => []
    hDoubleClick := fun _ => []
    hRightClick := fun _ => []
    hKey := fun _ => []
    hKeySequence := fun _ => []
    hDrag := fun _ => []
    hScroll := fun _ => []
    hHover := fun _ => []
    hInvoke := fun _ => []
    hSetValue := fun _ => []
    hScreenshot := fun _ => []
    hAssert := fun _ => []
    hWait := fun _ => []
    hWaitIdle := fun _ => []
    hWaitSignal := fun _ => []
    hSleep := fun _ => []
    hQuit := fun _ => []
    hCall := fun _ => []
    hListObjects := fun _ => []
    hListCustomCommands := fun _ => [] }

/-- An initial executor state with no properties set. -/
def demoState : ExecState :=
  { ui := { props := fun _ _ => JVal.null } }

/-- The step-result object `execute(Transaction)` appends for a
successful step. -/
def successEntry (i : Nat) (name : QStr) : JObj :=
  [(q "step", .num i), (q "command", .str name), (q "success", .bool true)]

/-- The step-result objects of a run of successful steps starting at
index `i`. -/
def successEntries : List Command → Nat → List JObj
  | [], _ => []
  | c :: rest, i => successEntry i c.name :: successEntries rest (i + 1)

/-- The step-result object `execute(Transaction)` appends for the
failing step (`e` is the step's error object). -/
def failEntry (i : Nat) (name : QStr) (e : JObj) : JObj :=
  [(q "step", .num i), (q "command", .str name), (q "success", .bool false),
   (q "error", .obj e)]

/-- Running a list of undo entries (most recent first) over a property
store; `rollback` applies exactly this to the UI properties. -/
def restoreProps (tk : ToolkitEnv) (stack : List UndoEntry) (pr : PropStore) : PropStore :=
  stack.foldl (fun pr2 u => applyUndoProps tk pr2 u) pr

/-- A command whose dispatch touches neither the property store nor the
undo stack, whatever the starting state (true of every command except
`set_property`, the only one calling `recordUndo`, and of the commands
whose modelled effects live outside the property store). -/
def PreservesUndoState (env : ExecEnv) (name : QStr) (params : JObj) : Prop :=
  ∀ s : ExecState,
    (dispatch env s name params).2.ui.props = s.ui.props ∧
    (dispatch env s name params).2.undoStack = s.undoStack

/-- A transaction step covered by the rollback guarantee: either a
`set_property` step (which records an undo entry) or a step that does
not touch the property store or the undo stack. -/
def StepOK (env : ExecEnv) (step : Command) : Prop :=
  step.name = q "set_property" ∨ PreservesUndoState env step.name step.params

/-- A three-step demo transaction whose second step fails (its target
does not exist); step three would succeed but must never run. -/
def txDemo : Transaction :=
  { id := q "tx-2"
    steps :=
      [{ name := q "set_property",
         params := [(q "target", .str (q "@name:testLineEdit")),
                    (q "property", .str (q "text")), (q "value", .str (q "modified"))] },
       { name := q "click", params := [(q "target", .str (q "@name:nonexistent"))] },
       { name := q "sleep", params := [] }]
    rollbackOnFailure := false }

/-- A demo transaction in which every step succeeds. -/
def txDemoOk : Transaction :=
  { id := q "tx-ok"
    steps :=
      [{ name := q "set_property",
         params := [(q "target", .str (q "@name:testLineEdit")),
                    (q "property", .str (q "text")), (q "value", .str (q "modified"))] },
       { name := q "sleep", params := [] }]
    rollbackOnFailure := false }

/-- The rollback scenario of the specification: set a text property,
then click a nonexistent target, with rollback enabled. -/
def txRollbackDemo : Transaction :=
  { id := q "tx-3"
    steps :=
      [{ name := q "set_property",
         params := [(q "target", .str (q "@name:testLineEdit")),
                    (q "property", .str (q "text")), (q "value", .str (q "modified"))] },
       { name := q "click", params := [(q "target", .str (q "@name:nonexistent"))] }]
    rollbackOnFailure := true }

/-- A transaction typing into the line edit and then failing: `type`
mutates the text property but records no undo entry. -/
def txTypeDemo : Transaction :=
  { id := q "tx-t"
    steps :=
      [{ name := q "type",
         params := [(q "target", .str (q "@name:testLineEdit")), (q "text", .str (q "x"))] },
       { name := q "click", params := [(q "target", .str (q "@name:nonexistent"))] }]
    rollbackOnFailure := true }

/-- Conditions under which the selector round trip is exact: all object
names in the forest are pairwise distinct, non-empty, free of the path
separator, not the wildcard, not in index notation and not
`@`-prefixed, and no class name collides with any object name. -/
def ForestOK (F : List WTree) : Prop :=
  (((searchListAll F).map (fun x => x.2.objectName)).Nodup) ∧
  ∀ x ∈ searchListAll F,
    x.2.objectName.isEmpty = false ∧ '/' ∉ x.2.objectName ∧ x.2.objectName ≠ q "*" ∧
    parseIndexSuffix x.2.objectName = none ∧
    qStartsWith x.2.objectName (q "@") = false ∧
    ∀ y ∈ searchListAll F, x.2.className ≠ y.2.objectName

/-- A forest in which two siblings share the object name `a`. -/
def forestCE : List WTree :=
  [.node { objectName := q "r", className := q "R" }
    [.node { objectName := q "a", className := q "B" } [],
     .node { objectName := q "a", className := q "C" } []]]

/-- A forest with unique non-empty object names. -/
def forestRT : List WTree :=
  [.node { objectName := q "w0", className := q "QWidget" }
    [.node { objectName := q "w1", className := q "QWidget" } []]]

/-- A finder environment with no active dialog window. -/
def emptyFinderEnv : FinderEnv := { dialogButtonForRole := fun _ => none }

/-! ## Theorems -/

/-- C10: every condition string that is not one of the nine condition
keywords and not parsable as `property:<name>=<value>` with a non-empty
name is silently mapped by `parseCondition` to the `Exists` condition,
so a `wait` command carrying such a condition string waits for the
target to exist instead of being rejected as invalid. -/
theorem unrecognized_condition_defaults_to_exists
    (s : QStr) (params : JObj)
    (hkw : s ∉ [q "exists", q "not_exists", q "visible", q "not_visible", q "enabled",
      q "disabled", q "focused", q "stable", q "idle"])
    (hprop : ¬ (qStartsWith s (q "property:") = true ∧ 0 < qIndexOf (s.drop 9) '='))
    (hcond : jToString (jGet? params (q "condition")) (q "exists") = s) :
    parseCondition s = (Condition.Exists, none) ∧
      (cmdWaitParams params).condition = Condition.Exists := by
  simp only [List.mem_cons, List.not_mem_nil, or_false, not_or] at hkw
  obtain ⟨h1, h2, h3, h4, h5, h6, h7, h8, h9⟩ := hkw
  have hpc : parseCondition s = (Condition.Exists, none) := by
    unfold parseCondition
    rw [if_neg h1, if_neg h2, if_neg h3, if_neg h4, if_neg h5, if_neg h6, if_neg h7,
      if_neg h8, if_neg h9]
    by_cases hs : qStartsWith s (q "property:") = true
    · rw [if_pos hs]
      have hni : ¬ (0 < qIndexOf (s.drop 9) '=') := fun hgt => hprop ⟨hs, hgt⟩
      simp only []
      rw [if_neg hni]
    · rw [if_neg hs]
  refine ⟨hpc, ?_⟩
  simp only [cmdWaitParams, hcond, hpc]

/-- Witness for C10 at the misspelled condition string `visble`. -/
theorem unrecognized_condition_defaults_to_exists_witness :
    parseCondition (q "visble") = (Condition.Exists, none) ∧
      (cmdWaitParams [(q "target", JVal.str (q "x")),
        (q "condition", JVal.str (q "visble"))]).condition = Condition.Exists :=
  unrecognized_condition_defaults_to_exists (q "visble")
    [(q "target", JVal.str (q "x")), (q "condition", JVal.str (q "visble"))]
    (by decide) (by decide) (by decide)

/-- C8: a `wait` call whose (non-`stable`) condition already holds at
call time returns success at the first poll iteration: the condition is
evaluated before any yield to `processEvents` (the yield count of the
result is 0) and the reported elapsed time is the clock value at entry,
strictly below `timeoutMs`. -/
theorem wait_immediate_success (env : WaitEnv) (params : WaitParams) (fuel : Nat)
    (hstable : params.condition ≠ Condition.Stable)
    (hcond : checkCondition (env.snapshotAt 0) params = true)
    (htime : env.elapsedAt 0 < params.timeoutMs)
    (hfuel : 1 ≤ fuel) :
    wait env params fuel = ({ success := true, elapsedMs := env.elapsedAt 0, error := [] }, 0) := by
  obtain ⟨n, rfl⟩ : ∃ n, fuel = n + 1 := ⟨fuel - 1, by omega⟩
  unfold wait waitLoop
  rw [if_pos htime, if_neg hstable, if_pos hcond]

/-- Witness for C8: `wait({condition: not_exists, target: never-existing})`
(as parsed by `cmdWait`) succeeds at iteration 0. -/
theorem wait_immediate_success_witness :
    wait waitDemoEnv (cmdWaitParams [(q "target", JVal.str (q "never-existing")),
      (q "condition", JVal.str (q "not_exists"))]) 100 =
      ({ success := true, elapsedMs := 0, error := [] }, 0) := by
  have h := wait_immediate_success waitDemoEnv
    (cmdWaitParams [(q "target", JVal.str (q "never-existing")),
      (q "condition", JVal.str (q "not_exists"))]) 100
    (by decide) (by decide) (by decide) (by decide)
  simpa using h

/-- C5 counterexample: a `subscribe` for `property_changed` with an
entirely empty filter (hence without the `target` and `property`
fields) is accepted and registered, and a subscribe with an empty
event type is rejected with `MISSING_PARAM`, not `INVALID_PARAMS`. -/
theorem subscribe_validation_counterexample :
    handleSubscribe (q "property_changed") [] =
      SubscribeOutcome.registered (q "property_changed") [] ∧
    handleSubscribe [] [] =
      SubscribeOutcome.rejected (q "MISSING_PARAM") (q "Missing event_type parameter") :=
  ⟨rfl, rfl⟩

/-- C5 (amended): a subscribe with a non-empty event type outside the
fixed five-type set is rejected with `INVALID_PARAMS` and registers
nothing; a `property_changed` subscribe whose filter is non-empty and
lacks a string `target` or a string `property` field is rejected with
`INVALID_PARAMS` and registers nothing. -/
theorem subscribe_validation_amended (eventType : QStr) (filter : JObj) :
    (eventType ≠ [] → eventType ∉ availableEventTypes →
      handleSubscribe eventType filter =
        .rejected (q "INVALID_PARAMS") (q "Unsupported event_type: " ++ eventType)) ∧
    (filter.isEmpty = false →
      (jIsString (jGet? filter (q "target")) = false ∨
        jIsString (jGet? filter (q "property")) = false) →
      handleSubscribe (q "property_changed") filter =
        .rejected (q "INVALID_PARAMS")
          (q "property_changed subscriptions require filter.target and filter.property")) := by
  constructor
  · intro hne hmem
    unfold handleSubscribe
    rw [if_neg hne, if_pos hmem]
  · intro hfe hbad
    unfold handleSubscribe
    rw [if_neg (by decide : ¬ (q "property_changed" = ([] : QStr)))]
    rw [if_neg (by decide : ¬ ¬ (q "property_changed" ∈ availableEventTypes))]
    rw [hfe]
    simp only [Bool.not_false, if_true, if_pos rfl]
    have hcond : (!jContains filter (q "target") || !jContains filter (q "property") ||
        !jIsString (jGet? filter (q "target")) || !jIsString (jGet? filter (q "property"))) =
        true := by
      rcases hbad with h | h <;> simp [h]
    rw [if_pos hcond]

/-- Witness for C5 (amended): a made-up event type is rejected with
`INVALID_PARAMS`; a `property_changed` subscribe whose filter has a
`target` but no `property` is rejected. -/
theorem subscribe_validation_amended_witness :
    handleSubscribe (q "bogus_event") [] =
      .rejected (q "INVALID_PARAMS") (q "Unsupported event_type: " ++ q "bogus_event") ∧
    handleSubscribe (q "property_changed") [(q "target", JVal.str (q "w"))] =
      .rejected (q "INVALID_PARAMS")
        (q "property_changed subscriptions require filter.target and filter.property") :=
  ⟨(subscribe_validation_amended (q "bogus_event") []).1 (by decide) (by decide),
   (subscribe_validation_amended (q "property_changed") [(q "target", JVal.str (q "w"))]).2
     rfl (Or.inr rfl)⟩

/-- C9 counterexample: in the exported recording document, the test
object inside `tests` contains no `setup`/`teardown` fields at all; the
empty `setup` and `teardown` arrays sit at the top level of the
document instead. -/
theorem recording_shape_counterexample :
    jGet? (firstTest (getRecording { recording := false, actions := [], startTimeIso := q "t0" }))
        (q "setup") = none ∧
    jGet? (firstTest (getRecording { recording := false, actions := [], startTimeIso := q "t0" }))
        (q "teardown") = none ∧
    jGet? (getRecording { recording := false, actions := [], startTimeIso := q "t0" })
        (q "setup") = some (JVal.arr []) ∧
    jGet? (getRecording { recording := false, actions := [], startTimeIso := q "t0" })
        (q "teardown") = some (JVal.arr []) :=
  ⟨rfl, rfl, rfl, rfl⟩

/-- C9 (amended): for every recording, the exported document has the
shape `{name, description, tests:[{name, steps:[{command, params}],
assertions:[]}], setup:[], teardown:[]}`: the single test object holds
name, steps and an empty assertions array, while the empty `setup` and
`teardown` arrays appear once at the top level of the document and not
inside the test object. -/
theorem recording_shape_amended (r : RecorderState) :
    jGet? (getRecording r) (q "name") = some (.str (q "Recorded Session")) ∧
    jGet? (getRecording r) (q "description") =
      some (.str (q "Recorded on " ++ r.startTimeIso)) ∧
    jGet? (getRecording r) (q "tests") = some (.arr [.obj
      [(q "name", .str (q "Recorded Test")),
       (q "steps", .arr (r.actions.map (fun a =>
         JVal.obj [(q "command", .str a.command), (q "params", .obj a.params)]))),
       (q "assertions", .arr [])]]) ∧
    jGet? (getRecording r) (q "setup") = some (.arr []) ∧
    jGet? (getRecording r) (q "teardown") = some (.arr []) ∧
    jGet? (firstTest (getRecording r)) (q "setup") = none ∧
    jGet? (firstTest (getRecording r)) (q "teardown") = none :=
  ⟨rfl, rfl, rfl, rfl, rfl, rfl, rfl⟩

/-- Helper: a deferred command task whose client is connected appends
exactly the executed command to the execution log. -/
theorem runCommandTask_executedLog (exec : Command → Response) (s : ServerState)
    (client : Nat) (cmd : Command) (d : Bool) (nowIso : QStr)
    (h : client ∈ s.connectedSockets) :
    (runCommandTask exec s client cmd d nowIso).executedLog = s.executedLog ++ [cmd.name] := by
  unfold runCommandTask
  rw [if_pos h]
  dsimp only
  split_ifs <;> rfl

/-- Helper: when the client disconnects during execution, the deferred
command task sends nothing. -/
theorem runCommandTask_sent_dropped (exec : Command → Response) (s : ServerState)
    (client : Nat) (cmd : Command) (nowIso : QStr)
    (h : client ∈ s.connectedSockets) (hnodup : s.connectedSockets.Nodup) :
    (runCommandTask exec s client cmd true nowIso).sent = s.sent := by
  have herase : client ∉ s.connectedSockets.erase client := by
    intro hmem
    rcases (List.Nodup.mem_erase_iff hnodup).mp hmem with ⟨hne, _⟩
    exact hne rfl
  unfold runCommandTask
  rw [if_pos h]
  dsimp only
  split_ifs <;> first | rfl | simp_all

/-- Helper: when the client stays connected, the deferred command task
delivers exactly one response to it. -/
theorem runCommandTask_sent_delivered (exec : Command → Response) (s : ServerState)
    (client : Nat) (cmd : Command) (nowIso : QStr)
    (h : client ∈ s.connectedSockets) :
    (runCommandTask exec s client cmd false nowIso).sent =
      s.sent ++ [(client, (exec cmd).toJson ++ [(q "type", JVal.str (q "response"))])] := by
  unfold runCommandTask
  rw [if_pos h]
  dsimp only
  split_ifs <;> first | rfl | simp_all

/-- C3: inbound command and transaction messages are never executed
inline in the message handler — the handler only appends a deferred
task (executing nothing and sending nothing) and returns.  The deferred
task executes nothing if the originating connection is already closed
when it runs; if the connection closes while the command executes, the
result is still computed (the executor runs) but no response is
delivered to that client.  `hnodup` models that the socket map
`socketToClientId_` holds each socket at most once. -/
theorem deferred_execution_semantics (s : ServerState) (client : Nat) (message : JObj)
    (exec : Command → Response) (execTx : Transaction → TransactionResponse)
    (cmd : Command) (tx : Transaction) (d : Bool) (nowIso : QStr)
    (hnodup : s.connectedSockets.Nodup) :
    (handleCommand s client message).executedLog = s.executedLog ∧
    (handleCommand s client message).sent = s.sent ∧
    (handleCommand s client message).pending =
      s.pending ++ [.commandTask client (Command.fromJson message)] ∧
    (handleTransaction s client message).executedLog = s.executedLog ∧
    (handleTransaction s client message).sent = s.sent ∧
    (handleTransaction s client message).pending =
      s.pending ++ [.transactionTask client (Transaction.fromJson message)] ∧
    (client ∉ s.connectedSockets →
      runCommandTask exec s client cmd d nowIso = s ∧
      runTransactionTask execTx s client tx d = s) ∧
    (client ∈ s.connectedSockets →
      (runCommandTask exec s client cmd d nowIso).executedLog = s.executedLog ++ [cmd.name] ∧
      (d = true → (runCommandTask exec s client cmd d nowIso).sent = s.sent) ∧
      (d = false → (runCommandTask exec s client cmd d nowIso).sent =
        s.sent ++ [(client, (exec cmd).toJson ++ [(q "type", JVal.str (q "response"))])])) := by
  refine ⟨rfl, rfl, rfl, rfl, rfl, rfl, ?_, ?_⟩
  · intro h
    constructor
    · unfold runCommandTask
      rw [if_neg h]
    · unfold runTransactionTask
      rw [if_neg h]
  · intro h
    refine ⟨runCommandTask_executedLog exec s client cmd d nowIso h, ?_, ?_⟩
    · rintro rfl
      exact runCommandTask_sent_dropped exec s client cmd nowIso h hnodup
    · rintro rfl
      exact runCommandTask_sent_delivered exec s client cmd nowIso h

/-- Witness for C3: one connected client (socket 7); the handler only
enqueues; the deferred task drops delivery when the client disconnects
during execution, and logs the execution when it stays connected. -/
theorem deferred_execution_semantics_witness :
    (handleCommand { connectedSockets := [7] } 7 [(q "command", JVal.str (q "sleep"))]).executedLog
      = [] ∧
    (runCommandTask (fun c => { id := c.id, success := true }) { connectedSockets := [7] } 7
      { name := q "sleep" } true (q "t")).sent = [] ∧
    (runCommandTask (fun c => { id := c.id, success := true }) { connectedSockets := [7] } 7
      { name := q "sleep" } false (q "t")).executedLog = [q "sleep"] := by
  have h := deferred_execution_semantics { connectedSockets := [7] } 7
    [(q "command", JVal.str (q "sleep"))] (fun c => { id := c.id, success := true })
    (fun _ => {}) { name := q "sleep" } {} true (q "t") (by simp)
  have h2 := deferred_execution_semantics { connectedSockets := [7] } 7
    [(q "command", JVal.str (q "sleep"))] (fun c => { id := c.id, success := true })
    (fun _ => {}) { name := q "sleep" } {} false (q "t") (by simp)
  have hm : 7 ∈ ({ connectedSockets := [7] } : ServerState).connectedSockets := by simp
  refine ⟨h.1, ?_, ?_⟩
  · simpa using (h.2.2.2.2.2.2.2 hm).2.1 rfl
  · simpa using (h2.2.2.2.2.2.2.2 hm).1


/-- C4: `dispatch` consults the built-in command table first by exact
name, then the caller-registered custom handlers (converting a thrown
exception into `INVOCATION_FAILED`); a name matching neither always
yields the `INVALID_COMMAND` error, and a custom handler registered
under a built-in name is never invoked — the dispatch outcome for a
built-in name does not depend on the registered custom handlers at
all. -/
theorem dispatch_precedence (env : ExecEnv) (s : ExecState) (command : QStr) (params : JObj) :
    (command ∉ builtinNames → customLookup env command = none →
      (dispatch env s command params).1 =
        errObj ecInvalidCommand (q "Unknown command: " ++ command)) ∧
    (command ∉ builtinNames → ∀ handler, customLookup env command = some handler →
      (dispatch env s command params).1 =
        (match handler params with
         | .ok r => r
         | .error msg => errObj ecInvocationFailed
             (q "Custom command '" ++ command ++ q "' threw exception: " ++ msg))) ∧
    (command ∈ builtinNames → ∀ custom,
      dispatch env s command params =
        dispatch { env with customCommands := custom } s command params) := by
  refine ⟨?_, ?_, ?_⟩
  · intro hnb hcl
    simp only [builtinNames, List.mem_cons, List.not_mem_nil, or_false, not_or] at hnb
    obtain ⟨n1, n2, n3, n4, n5, n6, n7, n8, n9, n10, n11, n12, n13, n14, n15, n16, n17, n18, n19, n20, n21, n22, n23, n24, n25, n26, n27, n28, n29, n30, n31, n32⟩ := hnb
    unfold dispatch
    dsimp only
    rw [if_neg n1, if_neg n2, if_neg n3, if_neg n4, if_neg n5, if_neg n6, if_neg n7, if_neg n8, if_neg n9, if_neg n10, if_neg n11, if_neg n12, if_neg n13, if_neg n14, if_neg n15, if_neg n16, if_neg n17, if_neg n18, if_neg n19, if_neg n20, if_neg n21, if_neg n22, if_neg n23, if_neg n24, if_neg n25, if_neg n26, if_neg n27, if_neg n28, if_neg n29, if_neg n30, if_neg n31, if_neg n32]
    match hc : env.customCommands with
    | none => simp [hc]
    | some commands =>
      simp only [customLookup, hc, Option.map_eq_none'] at hcl
      simp [hc, hcl]
  · intro hnb handler hcl
    simp only [builtinNames, List.mem_cons, List.not_mem_nil, or_false, not_or] at hnb
    obtain ⟨n1, n2, n3, n4, n5, n6, n7, n8, n9, n10, n11, n12, n13, n14, n15, n16, n17, n18, n19, n20, n21, n22, n23, n24, n25, n26, n27, n28, n29, n30, n31, n32⟩ := hnb
    unfold dispatch
    dsimp only
    rw [if_neg n1, if_neg n2, if_neg n3, if_neg n4, if_neg n5, if_neg n6, if_neg n7, if_neg n8, if_neg n9, if_neg n10, if_neg n11, if_neg n12, if_neg n13, if_neg n14, if_neg n15, if_neg n16, if_neg n17, if_neg n18, if_neg n19, if_neg n20, if_neg n21, if_neg n22, if_neg n23, if_neg n24, if_neg n25, if_neg n26, if_neg n27, if_neg n28, if_neg n29, if_neg n30, if_neg n31, if_neg n32]
    match hc : env.customCommands with
    | none => simp [customLookup, hc] at hcl
    | some commands =>
      simp only [customLookup, hc, Option.map_eq_some'] at hcl
      obtain ⟨kv, hfind, hkv⟩ := hcl
      simp only [hc, hfind, hkv]
      cases handler params <;> rfl
  · intro hb custom
    simp only [builtinNames, List.mem_cons, List.not_mem_nil, or_false] at hb
    rcases hb with rfl|rfl|rfl|rfl|rfl|rfl|rfl|rfl|rfl|rfl|rfl|rfl|rfl|rfl|rfl|rfl|rfl|rfl|rfl|rfl|rfl|rfl|rfl|rfl|rfl|rfl|rfl|rfl|rfl|rfl|rfl|rfl <;> rfl

/-- Witness for C4: an unregistered name yields `INVALID_COMMAND`, a
registered custom name runs its handler, and replacing the custom
handler table (which contains an entry shadowing `click`) does not
change the outcome of the built-in `click`. -/
theorem dispatch_precedence_witness :
    (dispatch demoEnv demoState (q "nope") []).1 =
      errObj ecInvalidCommand (q "Unknown command: " ++ q "nope") ∧
    (dispatch demoEnv demoState (q "frob") []).1 = [(q "done", JVal.bool true)] ∧
    dispatch demoEnv demoState (q "click") [] =
      dispatch { demoEnv with customCommands := none } demoState (q "click") [] := by
  have h1 := dispatch_precedence demoEnv demoState (q "nope") []
  have h2 := dispatch_precedence demoEnv demoState (q "frob") []
  have h3 := dispatch_precedence demoEnv demoState (q "click") []
  exact ⟨h1.1 (by decide) rfl, h2.2.1 (by decide) _ rfl, h3.2.2 (by decide) none⟩

/-- Helper: `resolveTarget` touches only the finder cache of the UI
state. -/
theorem resolveTarget_ui (tk : ToolkitEnv) (ui : UIState) (params : JObj) :
    (resolveTarget tk ui params).2.props = ui.props ∧
    (resolveTarget tk ui params).2.focused = ui.focused ∧
    (resolveTarget tk ui params).2.scheduledInput = ui.scheduledInput := by
  unfold resolveTarget
  dsimp only
  split_ifs
  · exact ⟨rfl, rfl, rfl⟩
  · rcases (find tk.finderEnv tk.forest ui.cache
      (jToString (jGet? params (q "target")) [])).1.widget with _ | w <;>
      exact ⟨rfl, rfl, rfl⟩

/-- Helper: `cmdSetProperty` leaves the dispatch log alone. -/
theorem cmdSetProperty_log (tk : ToolkitEnv) (s : ExecState) (p : JObj) :
    (cmdSetProperty tk s p).2.dispatchLog = s.dispatchLog := by
  unfold cmdSetProperty
  dsimp only
  rcases hr : (resolveTarget tk s.ui p).1.1 with _ | w <;> simp only [hr] <;> split_ifs <;> rfl

/-- Helper: `cmdClick` leaves the dispatch log alone. -/
theorem cmdClick_log (tk : ToolkitEnv) (s : ExecState) (p : JObj) :
    (cmdClick tk s p).2.dispatchLog = s.dispatchLog := by
  unfold cmdClick
  dsimp only
  rcases hr : (resolveTarget tk s.ui p).1.1 with _ | w <;> simp only [hr] <;>
    first
      | rfl
      | (rcases he : ensureVisible tk w with _ | msg <;> simp only [he] <;> rfl)

/-- Helper: `cmdType` leaves the dispatch log alone. -/
theorem cmdType_log (tk : ToolkitEnv) (s : ExecState) (p : JObj) :
    (cmdType tk s p).2.dispatchLog = s.dispatchLog := by
  unfold cmdType
  dsimp only
  rcases hr : (resolveTarget tk s.ui p).1.1 with _ | w <;> simp only [hr] <;>
    first
      | rfl
      | (split_ifs <;>
          first
            | rfl
            | (rcases he : ensureVisible tk w with _ | msg <;> simp only [he] <;>
                split_ifs <;> rfl))

/-- Helper: `cmdFocus` leaves the dispatch log alone. -/
theorem cmdFocus_log (tk : ToolkitEnv) (s : ExecState) (p : JObj) :
    (cmdFocus tk s p).2.dispatchLog = s.dispatchLog := by
  unfold cmdFocus
  dsimp only
  rcases hr : (resolveTarget tk s.ui p).1.1 with _ | w <;> simp only [hr] <;>
    first
      | rfl
      | (rcases ht : getW tk.forest w with _ | t <;> simp only [ht] <;>
          first
            | rfl
            | (split_ifs <;> rfl))

/-- Helper: `cmdExists` leaves the dispatch log alone. -/
theorem cmdExists_log (tk : ToolkitEnv) (s : ExecState) (p : JObj) :
    (cmdExists tk s p).2.dispatchLog = s.dispatchLog := rfl

/-- Helper: `cmdIsVisible` leaves the dispatch log alone. -/
theorem cmdIsVisible_log (tk : ToolkitEnv) (s : ExecState) (p : JObj) :
    (cmdIsVisible tk s p).2.dispatchLog = s.dispatchLog := by
  unfold cmdIsVisible
  dsimp only
  rcases hr : (resolveTarget tk s.ui p).1.1 with _ | w <;> simp only [hr] <;>
    first | rfl | dsimp only

set_option maxHeartbeats 1000000 in
/-- Helper: every `dispatch` call appends exactly the attempted command
name to the dispatch log. -/
theorem dispatch_log (env : ExecEnv) (s : ExecState) (c : QStr) (p : JObj) :
    (dispatch env s c p).2.dispatchLog = s.dispatchLog ++ [c] := by
  unfold dispatch
  dsimp only
  by_cases h1 : c = q "get_tree"
  · rw [if_pos h1]
  rw [if_neg h1]
  by_cases h2 : c = q "find"
  · rw [if_pos h2]
  rw [if_neg h2]
  by_cases h3 : c = q "describe"
  · rw [if_pos h3]
  rw [if_neg h3]
  by_cases h4 : c = q "get_property"
  · rw [if_pos h4]
  rw [if_neg h4]
  by_cases h5 : c = q "list_properties"
  · rw [if_pos h5]
  rw [if_neg h5]
  by_cases h6 : c = q "get_actions"
  · rw [if_pos h6]
  rw [if_neg h6]
  by_cases h7 : c = q "get_form_fields"
  · rw [if_pos h7]
  rw [if_neg h7]
  by_cases h8 : c = q "click"
  · rw [if_pos h8]
    exact cmdClick_log env.tk _ p
  rw [if_neg h8]
  by_cases h9 : c = q "double_click"
  · rw [if_pos h9]
  rw [if_neg h9]
  by_cases h10 : c = q "right_click"
  · rw [if_pos h10]
  rw [if_neg h10]
  by_cases h11 : c = q "type"
  · rw [if_pos h11]
    exact cmdType_log env.tk _ p
  rw [if_neg h11]
  by_cases h12 : c = q "key"
  · rw [if_pos h12]
  rw [if_neg h12]
  by_cases h13 : c = q "key_sequence"
  · rw [if_pos h13]
  rw [if_neg h13]
  by_cases h14 : c = q "drag"
  · rw [if_pos h14]
  rw [if_neg h14]
  by_cases h15 : c = q "scroll"
  · rw [if_pos h15]
  rw [if_neg h15]
  by_cases h16 : c = q "hover"
  · rw [if_pos h16]
  rw [if_neg h16]
  by_cases h17 : c = q "focus"
  · rw [if_pos h17]
    exact cmdFocus_log env.tk _ p
  rw [if_neg h17]
  by_cases h18 : c = q "set_property"
  · rw [if_pos h18]
    exact cmdSetProperty_log env.tk _ p
  rw [if_neg h18]
  by_cases h19 : c = q "invoke"
  · rw [if_pos h19]
  rw [if_neg h19]
  by_cases h20 : c = q "set_value"
  · rw [if_pos h20]
  rw [if_neg h20]
  by_cases h21 : c = q "screenshot"
  · rw [if_pos h21]
  rw [if_neg h21]
  by_cases h22 : c = q "assert"
  · rw [if_pos h22]
  rw [if_neg h22]
  by_cases h23 : c = q "exists"
  · rw [if_pos h23]
    exact cmdExists_log env.tk _ p
  rw [if_neg h23]
  by_cases h24 : c = q "is_visible"
  · rw [if_pos h24]
    exact cmdIsVisible_log env.tk _ p
  rw [if_neg h24]
  by_cases h25 : c = q "wait"
  · rw [if_pos h25]
  rw [if_neg h25]
  by_cases h26 : c = q "wait_idle"
  · rw [if_pos h26]
  rw [if_neg h26]
  by_cases h27 : c = q "wait_signal"
  · rw [if_pos h27]
  rw [if_neg h27]
  by_cases h28 : c = q "sleep"
  · rw [if_pos h28]
  rw [if_neg h28]
  by_cases h29 : c = q "quit"
  · rw [if_pos h29]
  rw [if_neg h29]
  by_cases h30 : c = q "call"
  · rw [if_pos h30]
  rw [if_neg h30]
  by_cases h31 : c = q "list_objects"
  · rw [if_pos h31]
  rw [if_neg h31]
  by_cases h32 : c = q "list_custom_commands"
  · rw [if_pos h32]
  rw [if_neg h32]
  rcases hc : env.customCommands with _ | commands
  · simp only [hc]
  · simp only [hc]
    rcases hf : commands.find? (fun kv => kv.1 = c) with _ | kv
    · simp only [hf]
    · simp only [hf]
      rcases hx : kv.2 p with r | msg
      · simp only [hx]
      · simp only [hx]
/-- Helper: loop invariant of `execSteps` — identity of the response,
the success/failure shapes of `completedSteps`, `rollbackPerformed`,
the attempted-step log and the per-step result array. -/
theorem execSteps_spec (env : ExecEnv) (rb : Bool) (txId : QStr) (total : Nat) :
    ∀ (steps : List Command) (s : ExecState) (i : Nat) (acc : List JObj),
      ((execSteps env rb txId total s steps i acc).1.id = txId ∧
       (execSteps env rb txId total s steps i acc).1.totalSteps = (total : Int)) ∧
      ((execSteps env rb txId total s steps i acc).1.success = true →
        (execSteps env rb txId total s steps i acc).1.completedSteps = (total : Int) ∧
        (execSteps env rb txId total s steps i acc).1.rollbackPerformed = false ∧
        (execSteps env rb txId total s steps i acc).2.dispatchLog =
          s.dispatchLog ++ steps.map Command.name ∧
        (execSteps env rb txId total s steps i acc).1.stepsResults =
          acc ++ successEntries steps i) ∧
      ((execSteps env rb txId total s steps i acc).1.success = false →
        ∃ k e stepk, steps.get? k = some stepk ∧ k < steps.length ∧
          (execSteps env rb txId total s steps i acc).1.completedSteps = ((i + k : Nat) : Int) ∧
          (execSteps env rb txId total s steps i acc).1.rollbackPerformed = rb ∧
          (execSteps env rb txId total s steps i acc).2.dispatchLog =
            s.dispatchLog ++ (steps.take (k + 1)).map Command.name ∧
          (execSteps env rb txId total s steps i acc).1.stepsResults =
            acc ++ successEntries (steps.take k) i ++ [failEntry (i + k) stepk.name e]) := by
  intro steps
  induction steps with
  | nil =>
    intro s i acc
    refine ⟨⟨rfl, rfl⟩, ?_, ?_⟩
    · intro _
      exact ⟨rfl, rfl, by simp [execSteps, clearUndoStack, successEntries], by
        simp [execSteps, successEntries]⟩
    · intro hfalse
      simp [execSteps] at hfalse
  | cons step rest ih =>
    intro s i acc
    by_cases hjc : jContains (dispatch env s step.name step.params).1 (q "error") = true
    · rw [show execSteps env rb txId total s (step :: rest) i acc =
        ({ id := txId, success := false, completedSteps := (i : Int),
           totalSteps := (total : Int),
           stepsResults := acc ++ [failEntry i step.name
             (jToObject (jGet? (dispatch env s step.name step.params).1 (q "error")))],
           rollbackPerformed := rb },
         if rb then rollback env.tk (dispatch env s step.name step.params).2
         else (dispatch env s step.name step.params).2) from by
          simp [execSteps, hjc, failEntry]]
      refine ⟨⟨rfl, rfl⟩, ?_, ?_⟩
      · intro hfalse
        simp at hfalse
      · intro _
        refine ⟨0, jToObject (jGet? (dispatch env s step.name step.params).1 (q "error")),
          step, rfl, by simp, by simp, rfl, ?_, by simp [successEntries]⟩
        have hlog : (if rb then rollback env.tk (dispatch env s step.name step.params).2
            else (dispatch env s step.name step.params).2).dispatchLog =
            (dispatch env s step.name step.params).2.dispatchLog := by
          split <;> rfl
        rw [hlog, dispatch_log]
        simp
    · rw [show execSteps env rb txId total s (step :: rest) i acc =
        execSteps env rb txId total (dispatch env s step.name step.params).2 rest (i + 1)
          (acc ++ [successEntry i step.name]) from by
          simp [execSteps, hjc, successEntry]]
      obtain ⟨hid, hsucc, hfail⟩ :=
        ih (dispatch env s step.name step.params).2 (i + 1) (acc ++ [successEntry i step.name])
      refine ⟨hid, ?_, ?_⟩
      · intro h
        obtain ⟨hc1, hc2, hc3, hc4⟩ := hsucc h
        refine ⟨hc1, hc2, ?_, ?_⟩
        · rw [hc3, dispatch_log]
          simp
        · rw [hc4]
          simp [successEntries]
      · intro h
        obtain ⟨k, e, stepk, hget, hlt, hcomp, hroll, hlog, hres⟩ := hfail h
        refine ⟨k + 1, e, stepk, by simpa using hget, by simpa using hlt, ?_, hroll, ?_, ?_⟩
        · rw [hcomp]
          congr 1
          omega
        · rw [hlog, dispatch_log]
          simp [List.take]
        · rw [hres]
          have harith : i + 1 + k = i + (k + 1) := by omega
          simp [successEntries, List.take, harith]

/-- C2: `execute(Transaction)` stops at the first failing step: the
response reports `success=false`, `completedSteps` equal to the index
of the failing step, `rollbackPerformed` exactly equal to the
`rollbackOnFailure` flag, the dispatch log shows that no step after
the failing one was ever attempted, and the per-step results hold
`success=true` entries for every earlier step and a single
`success=false` entry for the failing step.  On full success the
response reports `success=true`, `completedSteps` equal to the total
step count and `rollbackPerformed=false`, with every step attempted
exactly once. -/
theorem transaction_firstFailure_semantics (env : ExecEnv) (s0 : ExecState) (tx : Transaction) :
    ((executeTransaction env s0 tx).1.id = tx.id ∧
     (executeTransaction env s0 tx).1.totalSteps = (tx.steps.length : Int)) ∧
    ((executeTransaction env s0 tx).1.success = true →
      (executeTransaction env s0 tx).1.completedSteps = (tx.steps.length : Int) ∧
      (executeTransaction env s0 tx).1.rollbackPerformed = false ∧
      (executeTransaction env s0 tx).2.dispatchLog =
        s0.dispatchLog ++ tx.steps.map Command.name ∧
      (executeTransaction env s0 tx).1.stepsResults = successEntries tx.steps 0) ∧
    ((executeTransaction env s0 tx).1.success = false →
      ∃ k e stepk, tx.steps.get? k = some stepk ∧ k < tx.steps.length ∧
        (executeTransaction env s0 tx).1.completedSteps = (k : Int) ∧
        (executeTransaction env s0 tx).1.rollbackPerformed = tx.rollbackOnFailure ∧
        (executeTransaction env s0 tx).2.dispatchLog =
          s0.dispatchLog ++ (tx.steps.take (k + 1)).map Command.name ∧
        (executeTransaction env s0 tx).1.stepsResults =
          successEntries (tx.steps.take k) 0 ++ [failEntry k stepk.name e]) := by
  have h := execSteps_spec env tx.rollbackOnFailure tx.id tx.steps.length tx.steps
    (clearUndoStack s0) 0 []
  obtain ⟨hid, hsucc, hfail⟩ := h
  refine ⟨hid, ?_, ?_⟩
  · intro hs
    obtain ⟨hc1, hc2, hc3, hc4⟩ := hsucc hs
    exact ⟨hc1, hc2, hc3, by simpa using hc4⟩
  · intro hs
    obtain ⟨k, e, stepk, hget, hlt, hcomp, hroll, hlog, hres⟩ := hfail hs
    exact ⟨k, e, stepk, hget, hlt, by simpa using hcomp, hroll, hlog, by simpa using hres⟩

/-- Witness for C2: in the demo transaction whose second of three steps
fails with `rollbackOnFailure=false`, the response has
`completedSteps=1`, `rollbackPerformed=false`, and the third step is
never attempted; the all-success demo transaction completes with both
steps attempted. -/
theorem transaction_firstFailure_semantics_witness :
    ((executeTransaction demoEnv demoState txDemo).1.success = false ∧
      (∃ k e stepk, txDemo.steps.get? k = some stepk ∧ k < txDemo.steps.length ∧
        (executeTransaction demoEnv demoState txDemo).1.completedSteps = (k : Int) ∧
        (executeTransaction demoEnv demoState txDemo).1.rollbackPerformed =
          txDemo.rollbackOnFailure ∧
        (executeTransaction demoEnv demoState txDemo).2.dispatchLog =
          demoState.dispatchLog ++ (txDemo.steps.take (k + 1)).map Command.name ∧
        (executeTransaction demoEnv demoState txDemo).1.stepsResults =
          successEntries (txDemo.steps.take k) 0 ++ [failEntry k stepk.name e])) ∧
    ((executeTransaction demoEnv demoState txDemoOk).1.success = true ∧
      (executeTransaction demoEnv demoState txDemoOk).1.completedSteps =
        (txDemoOk.steps.length : Int) ∧
      (executeTransaction demoEnv demoState txDemoOk).1.rollbackPerformed = false) := by
  have h1 := transaction_firstFailure_semantics demoEnv demoState txDemo
  have h2 := transaction_firstFailure_semantics demoEnv demoState txDemoOk
  have hf : (executeTransaction demoEnv demoState txDemo).1.success = false := rfl
  have hs : (executeTransaction demoEnv demoState txDemoOk).1.success = true := rfl
  exact ⟨⟨hf, h1.2.2 hf⟩, hs, (h2.2.1 hs).1, (h2.2.1 hs).2.1⟩

/-- Helper: running one undo entry that restores the pre-write value of
a property write is the identity on the store. -/
theorem applyUndoProps_setPropStore (tk : ToolkitEnv) (pr : PropStore) (w : WId) (n : QStr)
    (v : JVal) (d : QStr) :
    applyUndoProps tk (setPropStore tk pr w n v)
      { widget := w, propName := n, oldValue := pr w n, description := d } = pr := by
  unfold applyUndoProps setPropStore
  dsimp only
  by_cases hro : tk.readOnlyProp w n
  · rw [if_pos hro, if_pos hro]
  · rw [if_neg hro, if_neg hro]
    funext w2 n2
    by_cases h2 : w2 = w ∧ n2 = n
    · simp [h2.1, h2.2]
    · simp [h2]

/-- Helper: running an undo entry whose old value equals the current
value is the identity on the store. -/
theorem applyUndoProps_self (tk : ToolkitEnv) (pr : PropStore) (w : WId) (n : QStr) (d : QStr) :
    applyUndoProps tk pr { widget := w, propName := n, oldValue := pr w n, description := d }
      = pr := by
  unfold applyUndoProps setPropStore
  dsimp only
  by_cases hro : tk.readOnlyProp w n
  · rw [if_pos hro]
  · rw [if_neg hro]
    funext w2 n2
    by_cases h2 : w2 = w ∧ n2 = n
    · simp [h2.1, h2.2]
    · simp [h2]

/-- Helper: a `set_property` dispatch, succeeding or failing, preserves
the restore invariant — undoing its whole undo stack still yields the
same store as before the step. -/
theorem dispatch_setProperty_inv (env : ExecEnv) (s : ExecState) (p : JObj) :
    restoreProps env.tk (dispatch env s (q "set_property") p).2.undoStack
        (dispatch env s (q "set_property") p).2.ui.props =
      restoreProps env.tk s.undoStack s.ui.props := by
  have hd : dispatch env s (q "set_property") p =
      cmdSetProperty env.tk { s with dispatchLog := s.dispatchLog ++ [q "set_property"] } p :=
    rfl
  rw [hd]
  unfold cmdSetProperty
  dsimp only
  have hui := resolveTarget_ui env.tk s.ui p
  rcases hr : (resolveTarget env.tk s.ui p).1.1 with _ | w <;> simp only [hr]
  · rw [hui.1]
  · split_ifs with hname hro
    · rw [hui.1]
    · dsimp only [recordUndo, restoreProps]
      rw [List.foldl_cons]
      rw [show (resolveTarget env.tk s.ui p).2.props = s.ui.props from hui.1]
      rw [applyUndoProps_self]
    · dsimp only [recordUndo, restoreProps]
      rw [List.foldl_cons]
      rw [show (resolveTarget env.tk s.ui p).2.props = s.ui.props from hui.1]
      rw [applyUndoProps_setPropStore]

/-- Helper: if the transaction's remaining steps are all rollback-safe
and execution fails, rolling back yields exactly the property store the
invariant records, and the response reports the rollback. -/
theorem execSteps_rollback_restores (env : ExecEnv) (txId : QStr) (total : Nat) :
    ∀ (steps : List Command) (s : ExecState) (i : Nat) (acc : List JObj) (P0 : PropStore),
      restoreProps env.tk s.undoStack s.ui.props = P0 →
      (∀ st ∈ steps, StepOK env st) →
      (execSteps env true txId total s steps i acc).1.success = false →
      (execSteps env true txId total s steps i acc).2.ui.props = P0 ∧
      (execSteps env true txId total s steps i acc).1.rollbackPerformed = true := by
  intro steps
  induction steps with
  | nil =>
    intro s i acc P0 _ _ hfalse
    simp [execSteps] at hfalse
  | cons step rest ih =>
    intro s i acc P0 hinv hok hfalse
    have hinv2 : restoreProps env.tk (dispatch env s step.name step.params).2.undoStack
        (dispatch env s step.name step.params).2.ui.props = P0 := by
      rcases hok step (by simp) with hname | hpres
      · rw [hname, ← hinv]
        exact dispatch_setProperty_inv env s step.params
      · rw [(hpres s).1, (hpres s).2, hinv]
    by_cases hjc : jContains (dispatch env s step.name step.params).1 (q "error") = true
    · rw [show execSteps env true txId total s (step :: rest) i acc =
        ({ id := txId, success := false, completedSteps := (i : Int),
           totalSteps := (total : Int),
           stepsResults := acc ++ [failEntry i step.name
             (jToObject (jGet? (dispatch env s step.name step.params).1 (q "error")))],
           rollbackPerformed := true },
         rollback env.tk (dispatch env s step.name step.params).2) from by
          simp [execSteps, hjc, failEntry]]
      exact ⟨hinv2, rfl⟩
    · rw [show execSteps env true txId total s (step :: rest) i acc =
        execSteps env true txId total (dispatch env s step.name step.params).2 rest (i + 1)
          (acc ++ [successEntry i step.name]) from by
          simp [execSteps, hjc, successEntry]] at hfalse ⊢
      exact ih (dispatch env s step.name step.params).2 (i + 1)
        (acc ++ [successEntry i step.name]) P0 hinv2 (fun st hst => hok st (by simp [hst]))
        hfalse

/-- C1 (amended): a transaction with `rollbackOnFailure=true` whose
steps are each either `set_property` steps (the only command that
records an undo entry) or steps that do not touch the property store
or the undo stack (for example a failing `click`), restores the whole
property store to its pre-transaction value whenever some step fails:
the recorded undo entries are popped in LIFO order and rewrite every
written property back to its old value.  State mutated by commands
that record no undo entry (such as `type` or `set_value`) is not
covered — see the counterexample. -/
theorem transaction_rollback_restores (env : ExecEnv) (s0 : ExecState) (tx : Transaction)
    (hsteps : ∀ st ∈ tx.steps, StepOK env st)
    (hrb : tx.rollbackOnFailure = true)
    (hfail : (executeTransaction env s0 tx).1.success = false) :
    (executeTransaction env s0 tx).2.ui.props = s0.ui.props ∧
    (executeTransaction env s0 tx).1.rollbackPerformed = true := by
  unfold executeTransaction at hfail ⊢
  rw [hrb] at hfail ⊢
  exact execSteps_rollback_restores env tx.id tx.steps.length tx.steps (clearUndoStack s0) 0 []
    s0.ui.props rfl hsteps hfail

/-- Helper: a `click` dispatch never touches the property store or the
undo stack, from any state. -/
theorem click_preservesUndoState (env : ExecEnv) (params : JObj) :
    PreservesUndoState env (q "click") params := by
  intro s
  have hd : dispatch env s (q "click") params =
      cmdClick env.tk { s with dispatchLog := s.dispatchLog ++ [q "click"] } params := rfl
  rw [hd]
  unfold cmdClick
  dsimp only
  have hui := resolveTarget_ui env.tk s.ui params
  rcases hr : (resolveTarget env.tk s.ui params).1.1 with _ | w <;> simp only [hr] <;>
    first
      | exact ⟨hui.1, by trivial⟩
      | (rcases he : ensureVisible env.tk w with _ | msg <;> simp only [he] <;>
          exact ⟨hui.1, by trivial⟩)

/-- Witness for C1 (amended): the specification's rollback scenario —
`set_property text="modified"` then `click` on a nonexistent target
with `rollbackOnFailure=true` — fails at step 2 and leaves the whole
property store (in particular the text property) at its
pre-transaction value. -/
theorem transaction_rollback_restores_witness :
    (∀ st ∈ txRollbackDemo.steps, StepOK demoEnv st) ∧
    txRollbackDemo.rollbackOnFailure = true ∧
    (executeTransaction demoEnv demoState txRollbackDemo).1.success = false ∧
    (executeTransaction demoEnv demoState txRollbackDemo).2.ui.props = demoState.ui.props ∧
    (executeTransaction demoEnv demoState txRollbackDemo).1.rollbackPerformed = true := by
  have hok : ∀ st ∈ txRollbackDemo.steps, StepOK demoEnv st := by
    intro st hst
    simp only [txRollbackDemo, List.mem_cons, List.not_mem_nil, or_false] at hst
    rcases hst with rfl | rfl
    · exact Or.inl rfl
    · exact Or.inr (click_preservesUndoState demoEnv _)
  have hfail : (executeTransaction demoEnv demoState txRollbackDemo).1.success = false := rfl
  have h := transaction_rollback_restores demoEnv demoState txRollbackDemo hok rfl hfail
  exact ⟨hok, rfl, hfail, h.1, h.2⟩

/-- C1 counterexample: the claim fails as universally stated — a
transaction whose first step is `type` (which writes the text property
through injected key events but records no undo entry) followed by a
failing `click`, with `rollbackOnFailure=true`, reports
`rollbackPerformed=true` yet leaves the text property at the typed
value instead of restoring its pre-transaction value. -/
theorem transaction_rollback_counterexample :
    (executeTransaction demoEnv demoState txTypeDemo).1.success = false ∧
    (executeTransaction demoEnv demoState txTypeDemo).1.rollbackPerformed = true ∧
    demoState.ui.props [0, 0] (q "text") = JVal.null ∧
    (executeTransaction demoEnv demoState txTypeDemo).2.ui.props [0, 0] (q "text") =
      JVal.str (q "x") :=
  ⟨rfl, rfl, rfl, rfl⟩

/-- C6 (amended): for every non-empty selector string, `resolveSelector`
dispatches on the first matching form in the fixed order `@name:`,
`@class:`, `@text:`, `@accessible:`, other `@role`, else path — i.e. it
agrees with the dispatcher written from the specification's words; in
particular a selector starting with `@name:` is always resolved by
object name and never as a role or a path.  (The empty selector is
rejected as invalid up front, without attempting path resolution — see
the counterexample.) -/
theorem selector_dispatch_order_amended (env : FinderEnv) (F : List WTree) (selector : QStr)
    (hne : selector ≠ []) :
    resolveSelector env F selector = specResolveSelector env F selector ∧
    (qStartsWith selector (q "@name:") = true →
      resolveSelector env F selector =
        (match byName F (selector.drop 6) with
         | some w => .ok w
         | none => .err (q "No widget with objectName '" ++ selector.drop 6 ++ q "'"))) := by
  have hie : selector.isEmpty = false := by
    cases selector
    · exact absurd rfl hne
    · rfl
  constructor
  · unfold resolveSelector specResolveSelector
    rw [hie, if_neg (by decide : ¬ (false = true))]
  · intro hn
    unfold resolveSelector
    rw [hie, if_neg (by decide : ¬ (false = true)), if_pos hn]

/-- Witness for C6 (amended) at the selector `@name:x` over the empty
forest. -/
theorem selector_dispatch_order_amended_witness :
    resolveSelector { dialogButtonForRole := fun _ => none } [] (q "@name:x") =
      specResolveSelector { dialogButtonForRole := fun _ => none } [] (q "@name:x") ∧
    resolveSelector { dialogButtonForRole := fun _ => none } [] (q "@name:x") =
      .err (q "No widget with objectName '" ++ (q "@name:x").drop 6 ++ q "'") := by
  have h := selector_dispatch_order_amended { dialogButtonForRole := fun _ => none } []
    (q "@name:x") (by decide)
  exact ⟨h.1, h.2 (by decide)⟩

/-- C6 counterexample: the empty selector matches no scheme prefix, so
by the claim it would be treated as a slash-separated path; the code
instead rejects it up front with a distinct `Empty selector` error and
never runs path resolution. -/
theorem selector_dispatch_order_counterexample :
    resolveSelector { dialogButtonForRole := fun _ => none } [] [] =
      .err (q "Empty selector") ∧
    specResolveSelector { dialogButtonForRole := fun _ => none } [] [] =
      .err (q "No widget matching path '" ++ [] ++ q "'") ∧
    resolveSelector { dialogButtonForRole := fun _ => none } [] [] ≠
      specResolveSelector { dialogButtonForRole := fun _ => none } [] [] :=
  ⟨rfl, rfl, by decide⟩

/-- Helper: one-step equation for `getInTree` on a non-empty path. -/
theorem getInTree_cons (t : WTree) (j : Nat) (rest : List Nat) :
    getInTree t (j :: rest) =
      match t.children.get? j with
      | some c => getInTree c rest
      | none => none := rfl

/-- Helper: one-step equation for `getW` on a non-empty position. -/
theorem getW_cons (F : List WTree) (i : Nat) (rest : List Nat) :
    getW F (i :: rest) =
      match F.get? i with
      | some t => getInTree t rest
      | none => none := rfl

/-- Helper: `getInTree` over an appended path steps through the middle
node. -/
theorem getInTree_append (r1 : List Nat) :
    ∀ (t : WTree) (r2 : List Nat),
      getInTree t (r1 ++ r2) =
        match getInTree t r1 with
        | some c => getInTree c r2
        | none => none := by
  induction r1 with
  | nil => intro t r2; rfl
  | cons j r1 ih =>
    intro t r2
    rcases hc : t.children.get? j with _ | c
    · simp only [List.cons_append, getInTree_cons, hc]
    · simp only [List.cons_append, getInTree_cons, hc]
      exact ih c r2

/-- Helper: a position extending a valid position through a valid
relative path is valid. -/
theorem getW_append_rest (F : List WTree) (p : WId) (t c : WTree) (rest : List Nat)
    (hp : getW F p = some t) (hr : getInTree t rest = some c) :
    getW F (p ++ rest) = some c := by
  rcases p with _ | ⟨i, p0⟩
  · simp [getW] at hp
  · rcases hF : F.get? i with _ | t0
    · rw [getW_cons, hF] at hp; exact absurd hp (by simp)
    · rw [getW_cons, hF] at hp
      dsimp only at hp
      rw [List.cons_append, getW_cons, hF]
      dsimp only
      rw [getInTree_append p0 t0 rest, hp]
      simpa using hr

/-- Helper: the `j`-th child of the node at a valid position `p` sits at
position `p ++ [j]`. -/
theorem getW_child (F : List WTree) (p : WId) (t c : WTree) (j : Nat)
    (hp : getW F p = some t) (hc : t.children.get? j = some c) :
    getW F (p ++ [j]) = some c := by
  apply getW_append_rest F p t c [j] hp
  rw [getInTree_cons, hc]
  simp [getInTree]

/-- Helper: every indexed child reachable through `getInTree` appears in
the preorder traversal, with its position. -/
theorem mem_preorderList_of_get :
    ∀ (n : Nat) (cs : List WTree), sizeOf cs ≤ n →
      ∀ (p : WId) (i j : Nat) (rest : List Nat) (c0 t' : WTree),
        cs.get? j = some c0 → getInTree c0 rest = some t' →
        (p ++ (i + j) :: rest, t') ∈ preorderList cs p i := by
  intro n
  induction n with
  | zero =>
    intro cs hcs
    exfalso
    cases cs <;> simp at hcs
  | succ n ih =>
    rintro (_ | ⟨⟨a, cc⟩, cs'⟩) hcs p i j rest c0 t' hget hin
    · simp at hget
    · simp only [List.cons.sizeOf_spec, WTree.node.sizeOf_spec] at hcs
      cases j with
      | zero =>
        injection hget with hget
        subst hget
        cases rest with
        | nil =>
          injection hin with hin
          subst hin
          simp [preorderList]
        | cons j2 r2 =>
          rw [getInTree_cons] at hin
          rcases hg2 : (WTree.node a cc).children.get? j2 with _ | c1
          · rw [hg2] at hin; exact absurd hin (by simp)
          · rw [hg2] at hin
            have hg2' : cc.get? j2 = some c1 := hg2
            have hmem := ih cc (by omega) (p ++ [i]) 0 j2 r2 c1 t' hg2' hin
            simp only [preorderList, List.mem_cons, List.mem_append]
            refine Or.inr (Or.inl ?_)
            simpa using hmem
      | succ j =>
        have hmem := ih cs' (by omega) p (i + 1) j rest c0 t' (by simpa using hget) hin
        simp only [preorderList, List.mem_cons, List.mem_append]
        refine Or.inr (Or.inr ?_)
        have harith : i + (j + 1) = i + 1 + j := by omega
        rw [harith]
        exact hmem

/-- Helper: every member of the preorder traversal is an indexed child
reachable through `getInTree`. -/
theorem preorderList_mem_get :
    ∀ (n : Nat) (cs : List WTree), sizeOf cs ≤ n →
      ∀ (p : WId) (i : Nat) (pp : WId) (t' : WTree),
        (pp, t') ∈ preorderList cs p i →
        ∃ j rest c0, cs.get? j = some c0 ∧ pp = p ++ (i + j) :: rest ∧
          getInTree c0 rest = some t' := by
  intro n
  induction n with
  | zero =>
    intro cs hcs
    exfalso
    cases cs <;> simp at hcs
  | succ n ih =>
    rintro (_ | ⟨⟨a, cc⟩, cs'⟩) hcs p i pp t' hmem
    · simp [preorderList] at hmem
    · simp only [List.cons.sizeOf_spec, WTree.node.sizeOf_spec] at hcs
      simp only [preorderList, List.mem_cons, List.mem_append] at hmem
      rcases hmem with hmem | hmem | hmem
      · injection hmem with h1 h2
        subst h2
        exact ⟨0, [], WTree.node a cc, rfl, by simpa using h1, rfl⟩
      · obtain ⟨j2, r2, c1, hg, hpp, hin⟩ := ih cc (by omega) (p ++ [i]) 0 pp t' hmem
        refine ⟨0, j2 :: r2, WTree.node a cc, rfl, ?_, ?_⟩
        · rw [hpp]; simp
        · rw [getInTree_cons,
            show (WTree.node a cc).children.get? j2 = some c1 from by simpa using hg]
          exact hin
      · obtain ⟨j2, r2, c1, hg, hpp, hin⟩ := ih cs' (by omega) p (i + 1) pp t' hmem
        refine ⟨j2 + 1, r2, c1, by simpa using hg, ?_, hin⟩
        rw [hpp]
        have harith : i + 1 + j2 = i + (j2 + 1) := by omega
        rw [harith]

/-- Helper: membership in the search list over a forest suffix. -/
theorem mem_searchListAux_iff (F : List WTree) :
    ∀ (i : Nat) (pp : WId) (t' : WTree),
      ((pp, t') ∈ searchListAux F i) ↔
        ∃ j rest c0, F.get? j = some c0 ∧ pp = (i + j) :: rest ∧
          getInTree c0 rest = some t' := by
  induction F with
  | nil =>
    intro i pp t'
    simp [searchListAux]
  | cons t F ih =>
    intro i pp t'
    simp only [searchListAux, List.mem_cons, List.mem_append]
    constructor
    · rintro (hmem | hmem | hmem)
      · injection hmem with h1 h2
        refine ⟨0, [], t, rfl, by simpa using h1, ?_⟩
        rw [h2]
        exact rfl
      · obtain ⟨j2, r2, c1, hg, hpp, hin⟩ :=
          preorderList_mem_get (sizeOf t.children) t.children (le_refl _) [i] 0 pp t'
            (by simpa [preorderTree] using hmem)
        refine ⟨0, j2 :: r2, t, rfl, by rw [hpp]; simp, ?_⟩
        rw [getInTree_cons, show t.children.get? j2 = some c1 from by simpa using hg]
        exact hin
      · obtain ⟨j2, r2, c1, hg, hpp, hin⟩ := (ih (i + 1) pp t').mp hmem
        refine ⟨j2 + 1, r2, c1, by simpa using hg, ?_, hin⟩
        rw [hpp]
        have harith : i + 1 + j2 = i + (j2 + 1) := by omega
        rw [harith]
    · rintro ⟨j, rest, c0, hg, rfl, hin⟩
      cases j with
      | zero =>
        injection hg with hg
        subst hg
        cases rest with
        | nil =>
          injection hin with hin
          subst hin
          exact Or.inl (by simp)
        | cons j2 r2 =>
          refine Or.inr (Or.inl ?_)
          rw [getInTree_cons] at hin
          rcases hg2 : t.children.get? j2 with _ | c1
          · rw [hg2] at hin; exact absurd hin (by simp)
          · rw [hg2] at hin
            have := mem_preorderList_of_get (sizeOf t.children) t.children (le_refl _)
              [i + 0] 0 j2 r2 c1 t' hg2 hin
            simpa [preorderTree] using this
      | succ j =>
        refine Or.inr (Or.inr ?_)
        have harith : i + (j + 1) = i + 1 + j := by omega
        rw [harith]
        exact (ih (i + 1) _ t').mpr ⟨j, rest, c0, by simpa using hg, rfl, hin⟩

/-- Helper: the search list over the whole forest holds exactly the
valid non-root positions. -/
theorem mem_searchListAll_iff (F : List WTree) (pp : WId) (t' : WTree) :
    (pp, t') ∈ searchListAll F ↔ pp ≠ [] ∧ getW F pp = some t' := by
  unfold searchListAll
  rw [mem_searchListAux_iff]
  constructor
  · rintro ⟨j, rest, c0, hg, rfl, hin⟩
    refine ⟨by simp, ?_⟩
    rw [show (0 + j) = j from by omega, getW_cons, hg]
    exact hin
  · rintro ⟨hne, hW⟩
    rcases pp with _ | ⟨j, rest⟩
    · exact absurd rfl hne
    · rw [getW_cons] at hW
      rcases hF : F.get? j with _ | c0
      · rw [hF] at hW; exact absurd hW (by simp)
      · rw [hF] at hW
        exact ⟨j, rest, c0, hF, by simp, hW⟩

/-- Helper: under `ForestOK` two distinct valid positions carry
distinct object names. -/
theorem forestOK_names_distinct (F : List WTree) (hok : ForestOK F)
    (pp pp' : WId) (t t' : WTree)
    (h1 : getW F pp = some t) (h2 : getW F pp' = some t')
    (hne1 : pp ≠ []) (hne2 : pp' ≠ []) (hne : pp ≠ pp') :
    t.objectName ≠ t'.objectName := by
  have hm1 : (pp, t) ∈ searchListAll F := (mem_searchListAll_iff F pp t).mpr ⟨hne1, h1⟩
  have hm2 : (pp', t') ∈ searchListAll F := (mem_searchListAll_iff F pp' t').mpr ⟨hne2, h2⟩
  have hinj := (List.nodup_map_iff_inj_on (List.Nodup.of_map _ hok.1)).mp hok.1
  intro heq
  exact hne (congrArg Prod.fst (hinj _ hm1 _ hm2 heq))

/-- Helper: the pointwise `ForestOK` facts about any valid widget. -/
theorem forestOK_props (F : List WTree) (hok : ForestOK F) (pp : WId) (t : WTree)
    (h : getW F pp = some t) (hne : pp ≠ []) :
    t.objectName.isEmpty = false ∧ '/' ∉ t.objectName ∧ t.objectName ≠ q "*" ∧
    parseIndexSuffix t.objectName = none ∧ qStartsWith t.objectName (q "@") = false ∧
    ∀ (pp' : WId) (t' : WTree), getW F pp' = some t' → pp' ≠ [] →
      t.objectName ≠ t'.className := by
  have hm := (mem_searchListAll_iff F pp t).mpr ⟨hne, h⟩
  obtain ⟨a1, a2, a3, a4, a5, _⟩ := hok.2 _ hm
  refine ⟨a1, a2, a3, a4, a5, ?_⟩
  intro pp' t' h' hne'
  have hm' := (mem_searchListAll_iff F pp' t').mpr ⟨hne', h'⟩
  exact fun hh => (hok.2 _ hm').2.2.2.2.2 _ hm hh.symm

/-- Helper: `findTopLevel` returns exactly the indexed top-level widget
when nothing else matches by object name and nothing at all matches by
class name. -/
theorem findTopLevel_exact (n0 : QStr) :
    ∀ (l : List WTree) (off j : Nat) (t0 : WTree),
      l.get? j = some t0 → t0.objectName = n0 →
      (∀ j' t', l.get? j' = some t' → j' ≠ j → t'.objectName ≠ n0) →
      (∀ j' t', l.get? j' = some t' → t'.className ≠ n0) →
      findTopLevel l off n0 = some (off + j, t0) := by
  intro l
  induction l with
  | nil => intro off j t0 hg _ _ _; exact absurd hg (by simp)
  | cons t l ih =>
    intro off j t0 hg hname hothers hclass
    cases j with
    | zero =>
      injection hg with hg
      subst hg
      unfold findTopLevel
      rw [if_pos (by simp [hname])]
      simp
    | succ j =>
      unfold findTopLevel
      rw [if_neg (by
        simp only [Bool.or_eq_true, decide_eq_true_eq, not_or]
        exact ⟨hothers 0 t rfl (by simp), hclass 0 t rfl⟩)]
      have hrec := ih (off + 1) j t0 (by simpa using hg) hname
        (fun j' t' hg' hne' => hothers (j' + 1) t' (by simpa using hg') (by omega))
        (fun j' t' hg' => hclass (j' + 1) t' (by simpa using hg'))
      rw [show off + (j + 1) = off + 1 + j from by omega]
      exact hrec

/-- Helper: `firstDirect` returns exactly the indexed child when every
earlier sibling fails the predicate. -/
theorem firstDirect_exact (pred : WTree → Bool) :
    ∀ (l : List WTree) (p : WId) (i j : Nat) (c : WTree),
      l.get? j = some c → pred c = true →
      (∀ j' c', j' < j → l.get? j' = some c' → pred c' = false) →
      firstDirect l p i pred = some (p ++ [i + j], c) := by
  intro l
  induction l with
  | nil => intro p i j c hg _ _; exact absurd hg (by simp)
  | cons t l ih =>
    intro p i j c hg hpred hbefore
    cases j with
    | zero =>
      injection hg with hg
      subst hg
      unfold firstDirect
      rw [if_pos hpred]
      simp
    | succ j =>
      unfold firstDirect
      rw [if_neg (by simp [hbefore 0 t (Nat.succ_pos j) rfl])]
      have hrec := ih p (i + 1) j c (by simpa using hg) hpred
        (fun j' c' hlt hg' => hbefore (j' + 1) c' (by omega) (by simpa using hg'))
      rw [show i + (j + 1) = i + 1 + j from by omega]
      exact hrec

/-- Helper: under `ForestOK` a non-recursive `ElementFinder::findChild`
lookup by the object name of the `j`-th child of a valid node returns
exactly that child. -/
theorem efFindChild_direct_name (F : List WTree) (hok : ForestOK F) (p : WId) (t c : WTree)
    (j : Nat) (hp : getW F p = some t) (hc : t.children.get? j = some c) :
    efFindChild t p c.objectName false = some (p ++ [j], c) := by
  have hcw : getW F (p ++ [j]) = some c := getW_child F p t c j hp hc
  have hprops := forestOK_props F hok (p ++ [j]) c hcw (by simp)
  have hfd := firstDirect_exact (fun c2 => c2.objectName = c.objectName) t.children p 0 j c hc
    (by simp)
    (fun j' c' hlt hg' => by
      have hcw' : getW F (p ++ [j']) = some c' := getW_child F p t c' j' hp hg'
      have hne := forestOK_names_distinct F hok (p ++ [j']) (p ++ [j]) c' c hcw' hcw
        (by simp) (by simp)
        (by
          intro hpp
          have hj : j' = j := by simpa using List.append_cancel_left hpp
          omega)
      simp [hne])
  unfold efFindChild
  rw [hprops.2.2.2.1]
  dsimp only
  rw [if_neg hprops.2.2.1]
  simp only [Bool.false_eq_true, if_false]
  rw [hfd]
  simp

/-- Helper: under `ForestOK` the path segment emitted for a valid
non-root position is its object name. -/
theorem pathSegmentName_objectName (F : List WTree) (hok : ForestOK F) (p : WId) (t : WTree)
    (hp : getW F p = some t) (hne : p ≠ []) :
    pathSegmentName F p = t.objectName := by
  have hprops := forestOK_props F hok p t hp hne
  unfold pathSegmentName
  rw [hp]
  dsimp only
  rw [if_pos (by simp [hprops.1])]

/-- Helper: navigating the emitted segment names from a valid position
follows exactly the indexed chain. -/
theorem navigatePath_chain (F : List WTree) (hok : ForestOK F) :
    ∀ (rest : List Nat) (p : WId) (t tEnd : WTree),
      getW F p = some t → p ≠ [] → getInTree t rest = some tEnd →
      navigatePath t p (pathForNamesAux F p rest) = some (p ++ rest, tEnd) := by
  intro rest
  induction rest with
  | nil =>
    intro p t tEnd _ _ hin
    injection hin with hin
    simp [pathForNamesAux, navigatePath, hin]
  | cons j rest ih =>
    intro p t tEnd hp hne hin
    rw [getInTree_cons] at hin
    rcases hc : t.children.get? j with _ | c
    · rw [hc] at hin; exact absurd hin (by simp)
    · rw [hc] at hin
      dsimp only at hin
      have hcw : getW F (p ++ [j]) = some c := getW_child F p t c j hp hc
      simp only [pathForNamesAux]
      rw [pathSegmentName_objectName F hok (p ++ [j]) c hcw (by simp)]
      simp only [navigatePath]
      rw [efFindChild_direct_name F hok p t c j hp hc]
      dsimp only
      rw [ih (p ++ [j]) c tEnd hcw (by simp) hin]
      simp

/-- Helper: each emitted segment name along a valid chain is the object
name of some valid widget. -/
theorem pathForNamesAux_names (F : List WTree) (hok : ForestOK F) :
    ∀ (rest : List Nat) (p : WId) (t tEnd : WTree),
      getW F p = some t → p ≠ [] → getInTree t rest = some tEnd →
      ∀ nm ∈ pathForNamesAux F p rest,
        ∃ pp tt, getW F pp = some tt ∧ pp ≠ [] ∧ nm = tt.objectName := by
  intro rest
  induction rest with
  | nil => intro p t tEnd _ _ _ nm hnm; simp [pathForNamesAux] at hnm
  | cons j rest ih =>
    intro p t tEnd hp hne hin nm hnm
    rw [getInTree_cons] at hin
    rcases hc : t.children.get? j with _ | c
    · rw [hc] at hin; exact absurd hin (by simp)
    · rw [hc] at hin
      dsimp only at hin
      have hcw : getW F (p ++ [j]) = some c := getW_child F p t c j hp hc
      simp only [pathForNamesAux, List.mem_cons] at hnm
      rcases hnm with rfl | hnm
      · exact ⟨p ++ [j], c, hcw, by simp,
          pathSegmentName_objectName F hok (p ++ [j]) c hcw (by simp)⟩
      · exact ih (p ++ [j]) c tEnd hcw (by simp) hin nm hnm

/-- Helper: splitting the `/`-intercalation of separator-free non-empty
parts recovers the parts. -/
theorem splitPathParts_intercalate (parts : List QStr)
    (hne : parts ≠ [])
    (hparts : ∀ nm ∈ parts, nm ≠ [] ∧ '/' ∉ nm) :
    splitPathParts (List.intercalate (q "/") parts) = parts := by
  unfold splitPathParts
  rw [show (q "/") = ['/'] from rfl]
  rw [List.splitOn_intercalate parts '/' (fun l hl => (hparts l hl).2) hne]
  rw [List.filter_eq_self]
  intro a ha
  have h1 := (hparts a ha).1
  cases a with
  | nil => exact absurd rfl h1
  | cons c cs => rfl

/-- Helper: a list whose `isEmpty` is `false` is not `[]`. -/
theorem ne_nil_of_isEmpty_false {α : Type} {l : List α} (h : l.isEmpty = false) : l ≠ [] := by
  intro hl
  rw [hl] at h
  exact absurd h (by simp)

/-- Helper: a top-level index is a valid singleton position. -/
theorem getW_top (F : List WTree) (i : Nat) (t : WTree) (h : F.get? i = some t) :
    getW F [i] = some t := by
  rw [getW_cons, h]
  exact rfl

/-- Helper: an intercalation keeps its first part as a prefix. -/
theorem intercalate_head_form (sep a : QStr) :
    ∀ rest : List QStr, ∃ tl, List.intercalate sep (a :: rest) = a ++ tl
  | [] => ⟨[], by simp [List.intercalate]⟩
  | b :: r => ⟨sep ++ List.intercalate sep (b :: r), by simp [List.intercalate]⟩

/-- Helper: the emitted segment names of a valid position start with the
root widget's object name. -/
theorem pathForNames_cons (F : List WTree) (hok : ForestOK F) (i0 : Nat) (rest : List Nat)
    (t0 : WTree) (hF : F.get? i0 = some t0) :
    pathForNames F (i0 :: rest) = t0.objectName :: pathForNamesAux F [i0] rest := by
  show pathForNamesAux F [] (i0 :: rest) = _
  simp only [pathForNamesAux]
  rw [show (([] : WId) ++ [i0]) = [i0] from rfl,
    pathSegmentName_objectName F hok [i0] t0 (getW_top F i0 t0 hF) (by simp)]

/-- Helper: the emitted path of a valid position starts with the root
widget's object name. -/
theorem pathFor_head_form (F : List WTree) (hok : ForestOK F) (i0 : Nat) (rest : List Nat)
    (t0 : WTree) (hF : F.get? i0 = some t0) :
    ∃ tl, pathFor F (i0 :: rest) = t0.objectName ++ tl := by
  unfold pathFor
  rw [pathForNames_cons F hok i0 rest t0 hF]
  exact intercalate_head_form (q "/") t0.objectName _

/-- Helper: under `ForestOK`, `byPath` on the emitted path of a valid
position returns that position. -/
theorem byPath_pathFor (F : List WTree) (hok : ForestOK F) (w : WId) (t : WTree)
    (hw : getW F w = some t) (hne : w ≠ []) :
    byPath F (pathFor F w) = some w := by
  rcases w with _ | ⟨i0, rest⟩
  · exact absurd rfl hne
  have hw0 := hw
  rw [getW_cons] at hw
  rcases hF : F.get? i0 with _ | t0
  · rw [hF] at hw; exact absurd hw (by simp)
  rw [hF] at hw
  dsimp only at hw
  have ht0 : getW F [i0] = some t0 := getW_top F i0 t0 hF
  have hprops0 := forestOK_props F hok [i0] t0 ht0 (by simp)
  have hopn : t0.objectName ≠ [] := ne_nil_of_isEmpty_false hprops0.1
  have hnames := pathForNames_cons F hok i0 rest t0 hF
  have hsegs : ∀ nm ∈ t0.objectName :: pathForNamesAux F [i0] rest, nm ≠ [] ∧ '/' ∉ nm := by
    intro nm hnm
    rcases List.mem_cons.mp hnm with rfl | hnm
    · exact ⟨hopn, hprops0.2.1⟩
    · obtain ⟨pp, tt, hppw, hppne, h3⟩ :=
        pathForNamesAux_names F hok rest [i0] t0 t ht0 (by simp) hw nm hnm
      have hpr := forestOK_props F hok pp tt hppw hppne
      rw [h3]
      exact ⟨ne_nil_of_isEmpty_false hpr.1, hpr.2.1⟩
  have hsplit : splitPathParts (pathFor F (i0 :: rest)) =
      t0.objectName :: pathForNamesAux F [i0] rest := by
    unfold pathFor
    rw [hnames]
    exact splitPathParts_intercalate _ (by simp) hsegs
  obtain ⟨tl, htl⟩ := pathFor_head_form F hok i0 rest t0 hF
  have hTop : findTopLevel F 0 t0.objectName = some (i0, t0) := by
    have := findTopLevel_exact t0.objectName F 0 i0 t0 hF rfl
      (fun j' t' hg' hne' => by
        exact (forestOK_names_distinct F hok [j'] [i0] t' t0
          (getW_top F j' t' hg') ht0 (by simp) (by simp) (by simp [hne'])))
      (fun j' t' hg' =>
        Ne.symm (hprops0.2.2.2.2.2 [j'] t' (getW_top F j' t' hg') (by simp)))
    simpa using this
  unfold byPath
  rw [if_neg (by
    rw [htl]
    rcases h0 : t0.objectName with _ | ⟨c0, cs0⟩
    · exact absurd h0 hopn
    · simp)]
  rw [hsplit]
  dsimp only
  rw [hTop]
  dsimp only
  rw [navigatePath_chain F hok rest [i0] t0 t ht0 (by simp) hw]
  simp

/-- Helper: a string starting with a non-`@` character does not start
with an `@`-prefixed scheme. -/
theorem qStartsWith_cons_at_false (c : Char) (tl pr : QStr) (hc : c ≠ '@') :
    qStartsWith (c :: tl) ('@' :: pr) = false := by
  have hbe : ('@' == c) = false := by
    simp only [beq_eq_false_iff_ne, ne_eq]
    exact fun h => hc h.symm
  show List.isPrefixOf ('@' :: pr) (c :: tl) = false
  simp [List.isPrefixOf, hbe]

/-- Helper: a name that does not start with `@` has a non-`@` head
character. -/
theorem head_ne_at (c : Char) (tl : QStr) (h : qStartsWith (c :: tl) (q "@") = false) :
    c ≠ '@' := by
  intro hc
  subst hc
  rw [show (q "@") = ['@'] from rfl] at h
  simp [qStartsWith, List.isPrefixOf] at h

/-- Helper: prefix checks for `@`-schemes fail on a path starting with
a non-`@` character. -/
theorem qStartsWith_app_at_false (c0 : Char) (cs0 tl pr : QStr) (hc : c0 ≠ '@') :
    ¬ (qStartsWith ((c0 :: cs0) ++ tl) ('@' :: pr) = true) := by
  rw [List.cons_append, qStartsWith_cons_at_false c0 (cs0 ++ tl) pr hc]
  simp

/-- Helper: under `ForestOK`, `resolveSelector` on the emitted path of
a valid position takes the path branch and resolves to that position. -/
theorem resolveSelector_pathFor (env : FinderEnv) (F : List WTree) (hok : ForestOK F)
    (w : WId) (t : WTree) (hw : getW F w = some t) (hne : w ≠ []) :
    resolveSelector env F (pathFor F w) = .ok w := by
  rcases w with _ | ⟨i0, rest⟩
  · exact absurd rfl hne
  have hw0 := hw
  rw [getW_cons] at hw
  rcases hF : F.get? i0 with _ | t0
  · rw [hF] at hw; exact absurd hw (by simp)
  rw [hF] at hw
  dsimp only at hw
  have ht0 : getW F [i0] = some t0 := getW_top F i0 t0 hF
  have hprops0 := forestOK_props F hok [i0] t0 ht0 (by simp)
  obtain ⟨tl, htl⟩ := pathFor_head_form F hok i0 rest t0 hF
  rcases hobj : t0.objectName with _ | ⟨c0, cs0⟩
  · have h1 := hprops0.1
    rw [hobj] at h1
    simp at h1
  rw [hobj] at htl
  have hc0 : c0 ≠ '@' := by
    have h5 := hprops0.2.2.2.2.1
    rw [hobj] at h5
    exact head_ne_at c0 cs0 h5
  have hn1 : ¬ (qStartsWith ((c0 :: cs0) ++ tl) (q "@name:") = true) :=
    qStartsWith_app_at_false c0 cs0 tl (q "name:") hc0
  have hn2 : ¬ (qStartsWith ((c0 :: cs0) ++ tl) (q "@class:") = true) :=
    qStartsWith_app_at_false c0 cs0 tl (q "class:") hc0
  have hn3 : ¬ (qStartsWith ((c0 :: cs0) ++ tl) (q "@text:") = true) :=
    qStartsWith_app_at_false c0 cs0 tl (q "text:") hc0
  have hn4 : ¬ (qStartsWith ((c0 :: cs0) ++ tl) (q "@accessible:") = true) :=
    qStartsWith_app_at_false c0 cs0 tl (q "accessible:") hc0
  have hn5 : ¬ (qStartsWith ((c0 :: cs0) ++ tl) (q "@") = true) :=
    qStartsWith_app_at_false c0 cs0 tl [] hc0
  unfold resolveSelector
  rw [htl]
  rw [if_neg (by simp)]
  rw [if_neg hn1, if_neg hn2, if_neg hn3, if_neg hn4, if_neg hn5]
  rw [← htl]
  rw [byPath_pathFor F hok (i0 :: rest) t hw0 (by simp)]

/-- Helper: a successful `firstDirect` result is an indexed child. -/
theorem firstDirect_get (pred : WTree → Bool) :
    ∀ (l : List WTree) (p : WId) (i : Nat) (r : WId × WTree),
      firstDirect l p i pred = some r →
      ∃ j c, l.get? j = some c ∧ r = (p ++ [i + j], c) := by
  intro l
  induction l with
  | nil => intro p i r h; exact absurd h (by simp [firstDirect])
  | cons t l ih =>
    intro p i r h
    unfold firstDirect at h
    by_cases hp : pred t = true
    · rw [if_pos hp] at h
      injection h with h
      exact ⟨0, t, rfl, by rw [← h]; simp⟩
    · rw [if_neg hp] at h
      obtain ⟨j, c, hg, hr⟩ := ih p (i + 1) r h
      exact ⟨j + 1, c, by simpa using hg,
        by rw [hr, show i + (j + 1) = i + 1 + j from by omega]⟩

/-- Helper: a successful `nthMatch` result belongs to the scanned
list. -/
theorem nthMatch_mem :
    ∀ (lst : List (WId × WTree)) (pred : WTree → Bool) (k : Nat) (r : WId × WTree),
      nthMatch lst pred k = some r → r ∈ lst := by
  intro lst
  induction lst with
  | nil => intro pred k r h; exact absurd h (by simp [nthMatch])
  | cons c rest ih =>
    intro pred k r h
    unfold nthMatch at h
    by_cases hpc : pred c.2 = true
    · rw [if_pos hpc] at h
      by_cases hk : k = 0
      · rw [if_pos hk] at h
        injection h with h
        rw [← h]
        exact List.mem_cons_self c rest
      · rw [if_neg hk] at h
        exact List.mem_cons_of_mem c (ih pred (k - 1) r h)
    · rw [if_neg hpc] at h
      exact List.mem_cons_of_mem c (ih pred k r h)

/-- Helper: a member of `directList` is an indexed child. -/
theorem directList_get :
    ∀ (cs : List WTree) (p : WId) (i : Nat) (pp : WId) (c : WTree),
      (pp, c) ∈ directList cs p i → ∃ j, cs.get? j = some c ∧ pp = p ++ [i + j] := by
  intro cs
  induction cs with
  | nil => intro p i pp c h; simp [directList] at h
  | cons t cs ih =>
    intro p i pp c h
    simp only [directList, List.mem_cons] at h
    rcases h with h | h
    · injection h with h1 h2
      exact ⟨0, by rw [h2]; rfl, by rw [h1]; simp⟩
    · obtain ⟨j, hg, hpp⟩ := ih p (i + 1) pp c h
      exact ⟨j + 1, by simpa using hg,
        by rw [hpp, show i + (j + 1) = i + 1 + j from by omega]⟩

/-- Helper: the recursive `findChild` search only returns members of the
preorder traversal. -/
theorem qFindChild_mem :
    ∀ (n : Nat),
      (∀ t : WTree, sizeOf t ≤ n → ∀ (p : WId) (pred : WTree → Bool) (r : WId × WTree),
        qFindChildTree t p pred = some r → r ∈ preorderTree t p) ∧
      (∀ cs : List WTree, sizeOf cs ≤ n → ∀ (p : WId) (i : Nat) (pred : WTree → Bool)
        (r : WId × WTree), qFindChildList cs p i pred = some r → r ∈ preorderList cs p i) := by
  intro n
  induction n with
  | zero =>
    constructor
    · rintro ⟨a, cc⟩ ht
      exfalso
      simp only [WTree.node.sizeOf_spec] at ht
      omega
    · intro cs hcs
      exfalso
      cases cs <;> simp at hcs
  | succ n ih =>
    constructor
    · rintro ⟨a, cc⟩ ht p pred r h
      simp only [WTree.node.sizeOf_spec] at ht
      simp only [qFindChildTree] at h
      rcases hfd : firstDirect cc p 0 pred with _ | r0
      · rw [hfd] at h
        dsimp only at h
        have hmem := ih.2 cc (by omega) p 0 pred r h
        simpa [preorderTree] using hmem
      · rw [hfd] at h
        dsimp only at h
        injection h with h
        obtain ⟨j, c, hg, hr⟩ := firstDirect_get pred cc p 0 r0 hfd
        have hmem := mem_preorderList_of_get (sizeOf cc) cc (le_refl _) p 0 j [] c c hg rfl
        rw [← h, hr]
        simpa [preorderTree] using hmem
    · rintro (_ | ⟨c, cs'⟩) hcs p i pred r h
      · exact absurd h (by simp [qFindChildList])
      · simp only [List.cons.sizeOf_spec] at hcs
        simp only [qFindChildList] at h
        rcases hqt : qFindChildTree c (p ++ [i]) pred with _ | r0
        · rw [hqt] at h
          dsimp only at h
          have hmem := ih.2 cs' (by omega) p (i + 1) pred r h
          rcases c with ⟨a, cc⟩
          simp only [preorderList, List.mem_cons, List.mem_append]
          exact Or.inr (Or.inr hmem)
        · rw [hqt] at h
          dsimp only at h
          injection h with h
          have hr0 := ih.1 c (by omega) (p ++ [i]) pred r0 hqt
          rw [← h]
          rcases c with ⟨a, cc⟩
          simp only [preorderTree] at hr0
          simp only [preorderList, List.mem_cons, List.mem_append]
          exact Or.inr (Or.inl hr0)

/-- Helper: members of the preorder traversal below a valid node are
valid non-root positions. -/
theorem getW_of_preorderTree (F : List WTree) (p : WId) (t : WTree) (r : WId × WTree)
    (hp : getW F p = some t) (hr : r ∈ preorderTree t p) :
    getW F r.1 = some r.2 ∧ r.1 ≠ [] := by
  obtain ⟨j, rest, c0, hg, hpos, hin⟩ := preorderList_mem_get (sizeOf t.children) t.children
    (le_refl _) p 0 r.1 r.2 (by rcases r with ⟨pp, tt⟩; simpa [preorderTree] using hr)
  have hg' : t.children.get? (0 + j) = some c0 := by rw [Nat.zero_add]; exact hg
  constructor
  · rw [hpos]
    apply getW_append_rest F p t r.2 ((0 + j) :: rest) hp
    rw [getInTree_cons, hg']
    exact hin
  · rw [hpos]; simp

/-- Helper: members of the direct-children list of a valid node are
valid non-root positions. -/
theorem getW_of_directList (F : List WTree) (p : WId) (t : WTree) (pp : WId) (c : WTree)
    (hp : getW F p = some t) (hr : (pp, c) ∈ directList t.children p 0) :
    getW F pp = some c ∧ pp ≠ [] := by
  obtain ⟨j, hg, hpp⟩ := directList_get t.children p 0 pp c hr
  subst hpp
  refine ⟨?_, by simp⟩
  rw [Nat.zero_add]
  exact getW_child F p t c j hp hg

/-- Helper: any widget returned by `ElementFinder::findChild` below a
valid node is a valid non-root position. -/
theorem efFindChild_valid (F : List WTree) (p : WId) (t : WTree) (name : QStr) (rec : Bool)
    (r : WId × WTree) (hp : getW F p = some t)
    (h : efFindChild t p name rec = some r) :
    getW F r.1 = some r.2 ∧ r.1 ≠ [] := by
  have hlist : ∀ r0 : WId × WTree,
      r0 ∈ (if rec then preorderTree t p else directList t.children p 0) →
      getW F r0.1 = some r0.2 ∧ r0.1 ≠ [] := by
    cases rec
    · intro r0 hr0
      rw [if_neg (by simp)] at hr0
      exact getW_of_directList F p t r0.1 r0.2 hp hr0
    · intro r0 hr0
      rw [if_pos rfl] at hr0
      exact getW_of_preorderTree F p t r0 hp hr0
  unfold efFindChild at h
  rcases hpi : parseIndexSuffix name with _ | bi
  · rw [hpi] at h
    dsimp only at h
    by_cases hstar : name = q "*"
    · rw [if_pos hstar] at h
      exact hlist r (List.mem_of_mem_head? (by simpa using h))
    · rw [if_neg hstar] at h
      rcases hsearch : (if rec then qFindChildTree t p (fun c => c.objectName = name)
          else firstDirect t.children p 0 (fun c => c.objectName = name)) with _ | r0
      · rw [hsearch] at h
        dsimp only at h
        exact hlist r (List.mem_of_find?_eq_some h)
      · rw [hsearch] at h
        dsimp only at h
        injection h with h
        rw [← h]
        cases rec
        · rw [if_neg (by simp)] at hsearch
          obtain ⟨j, c, hg, hr⟩ := firstDirect_get _ t.children p 0 r0 hsearch
          rw [hr]
          refine ⟨?_, by simp⟩
          rw [Nat.zero_add]
          exact getW_child F p t c j hp hg
        · rw [if_pos rfl] at hsearch
          exact getW_of_preorderTree F p t r0 hp
            ((qFindChild_mem (sizeOf t)).1 t (le_refl _) p _ r0 hsearch)
  · rw [hpi] at h
    dsimp only at h
    exact hlist r (nthMatch_mem _ _ _ r h)

/-- Helper: a successful `byNameAux` result is a valid non-root
position; the hypothesis ties the scanned suffix to the forest. -/
theorem byNameAux_valid (F : List WTree) (name : QStr) :
    ∀ (l : List WTree) (i : Nat),
      (∀ k t, l.get? k = some t → F.get? (i + k) = some t) →
      ∀ w, byNameAux l i name = some w →
        w ≠ [] ∧ ∃ t, getW F w = some t := by
  intro l
  induction l with
  | nil => intro i _ w h; exact absurd h (by simp [byNameAux])
  | cons t l ih =>
    intro i hsub w h
    unfold byNameAux at h
    by_cases hn : t.objectName = name
    · rw [if_pos hn] at h
      injection h with h
      refine ⟨by rw [← h]; simp, t, ?_⟩
      rw [← h]
      exact getW_top F i t (by simpa using hsub 0 t rfl)
    · rw [if_neg hn] at h
      rcases hq : qFindChildTree t [i] (fun c => c.objectName = name) with _ | r
      · rw [hq] at h
        dsimp only at h
        refine ih (i + 1) (fun k t' hk => ?_) w h
        have := hsub (k + 1) t' (by simpa using hk)
        simpa [show i + (k + 1) = i + 1 + k from by omega] using this
      · rw [hq] at h
        dsimp only at h
        injection h with h
        have hti : getW F [i] = some t := getW_top F i t (by simpa using hsub 0 t rfl)
        have hmem := (qFindChild_mem (sizeOf t)).1 t (le_refl _) [i] _ r hq
        have hv := getW_of_preorderTree F [i] t r hti hmem
        exact ⟨by rw [← h]; exact hv.2, r.2, by rw [← h]; exact hv.1⟩

/-- Helper: a successful `byClassAux` result is a valid non-root
position. -/
theorem byClassAux_valid (F : List WTree) (cname : QStr) :
    ∀ (l : List WTree) (i : Nat),
      (∀ k t, l.get? k = some t → F.get? (i + k) = some t) →
      ∀ w, byClassAux l i cname = some w →
        w ≠ [] ∧ ∃ t, getW F w = some t := by
  intro l
  induction l with
  | nil => intro i _ w h; exact absurd h (by simp [byClassAux])
  | cons t l ih =>
    intro i hsub w h
    unfold byClassAux at h
    by_cases hn : t.className = cname
    · rw [if_pos hn] at h
      injection h with h
      refine ⟨by rw [← h]; simp, t, ?_⟩
      rw [← h]
      exact getW_top F i t (by simpa using hsub 0 t rfl)
    · rw [if_neg hn] at h
      rcases hq : (preorderTree t [i]).find? (fun c => c.2.className = cname) with _ | r
      · rw [hq] at h
        dsimp only at h
        refine ih (i + 1) (fun k t' hk => ?_) w h
        have := hsub (k + 1) t' (by simpa using hk)
        simpa [show i + (k + 1) = i + 1 + k from by omega] using this
      · rw [hq] at h
        dsimp only at h
        injection h with h
        have hti : getW F [i] = some t := getW_top F i t (by simpa using hsub 0 t rfl)
        have hv := getW_of_preorderTree F [i] t r hti (List.mem_of_find?_eq_some hq)
        exact ⟨by rw [← h]; exact hv.2, r.2, by rw [← h]; exact hv.1⟩

/-- Helper: a `find?` hit over the full search list is a valid non-root
position. -/
theorem searchListAll_find_valid (F : List WTree) (pred : WId × WTree → Bool) (w : WId)
    (h : ((searchListAll F).find? pred).map (fun c => c.1) = some w) :
    w ≠ [] ∧ ∃ t, getW F w = some t := by
  rcases hf : (searchListAll F).find? pred with _ | r
  · rw [hf] at h; exact absurd h (by simp)
  · rw [hf] at h
    rw [Option.map_some'] at h
    injection h with h
    have hmem := List.mem_of_find?_eq_some hf
    rcases r with ⟨pp, tt⟩
    have hv := (mem_searchListAll_iff F pp tt).mp hmem
    exact ⟨by rw [← h]; exact hv.1, tt, by rw [← h]; exact hv.2⟩

/-- Helper: navigation from a valid position stays on valid non-root
positions. -/
theorem navigatePath_valid (F : List WTree) :
    ∀ (parts : List QStr) (t : WTree) (p : WId) (r : WId × WTree),
      getW F p = some t → p ≠ [] →
      navigatePath t p parts = some r →
      getW F r.1 = some r.2 ∧ r.1 ≠ [] := by
  intro parts
  induction parts with
  | nil =>
    intro t p r hp hne h
    simp only [navigatePath] at h
    injection h with h
    rw [← h]
    exact ⟨hp, hne⟩
  | cons part rest ih =>
    intro t p r hp hne h
    simp only [navigatePath] at h
    rcases h1 : efFindChild t p part false with _ | c
    · rw [h1] at h
      dsimp only at h
      rcases h2 : efFindChild t p part true with _ | c
      · rw [h2] at h; exact absurd h (by simp)
      · rw [h2] at h
        dsimp only at h
        have hv := efFindChild_valid F p t part true c hp h2
        exact ih c.2 c.1 r hv.1 hv.2 h
    · rw [h1] at h
      dsimp only at h
      have hv := efFindChild_valid F p t part false c hp h1
      exact ih c.2 c.1 r hv.1 hv.2 h

/-- Helper: a successful `findTopLevel` hit is an indexed top-level
widget at or past the offset. -/
theorem findTopLevel_get :
    ∀ (l : List WTree) (off : Nat) (n0 : QStr) (it : Nat × WTree),
      findTopLevel l off n0 = some it →
      off ≤ it.1 ∧ l.get? (it.1 - off) = some it.2 := by
  intro l
  induction l with
  | nil => intro off n0 it h; exact absurd h (by simp [findTopLevel])
  | cons t l ih =>
    intro off n0 it h
    unfold findTopLevel at h
    by_cases hc : (t.objectName = n0 || t.className = n0) = true
    · rw [if_pos hc] at h
      injection h with h
      rw [← h]
      exact ⟨le_refl _, by simp⟩
    · rw [if_neg hc] at h
      obtain ⟨hle, hg⟩ := ih (off + 1) n0 it h
      refine ⟨by omega, ?_⟩
      rw [show it.1 - off = (it.1 - (off + 1)) + 1 from by omega]
      simpa using hg

/-- Helper: a successful `byPath` result is a valid non-root
position. -/
theorem byPath_valid (F : List WTree) (path : QStr) (w : WId)
    (h : byPath F path = some w) : w ≠ [] ∧ ∃ t, getW F w = some t := by
  unfold byPath at h
  by_cases he : path.isEmpty
  · rw [if_pos he] at h; exact absurd h (by simp)
  · rw [if_neg he] at h
    rcases hs : splitPathParts path with _ | ⟨firstPart, rest⟩
    · rw [hs] at h; exact absurd h (by simp)
    · rw [hs] at h
      dsimp only at h
      rcases ht : findTopLevel F 0 firstPart with _ | it
      · rw [ht] at h; exact absurd h (by simp)
      · rw [ht] at h
        dsimp only at h
        rcases hn : navigatePath it.2 [it.1] rest with _ | rr
        · rw [hn] at h; exact absurd h (by simp)
        · rw [hn] at h
          dsimp only at h
          injection h with h
          have hti := findTopLevel_get F 0 firstPart it ht
          have hF : F.get? it.1 = some it.2 := by simpa using hti.2
          have hv := navigatePath_valid F rest it.2 [it.1] rr
            (getW_top F it.1 it.2 hF) (by simp) hn
          exact ⟨by rw [← h]; exact hv.2, rr.2, by rw [← h]; exact hv.1⟩

/-- Helper: any widget to which `resolveSelector` resolves is a valid
non-root position; the hypothesis states the same of the toolkit's
dialog-button lookup. -/
theorem resolveSelector_ok_valid (env : FinderEnv) (F : List WTree) (sel : QStr) (w : WId)
    (henv : ∀ role w2, env.dialogButtonForRole role = some w2 →
      w2 ≠ [] ∧ ∃ t2, getW F w2 = some t2)
    (hres : resolveSelector env F sel = .ok w) :
    w ≠ [] ∧ ∃ t, getW F w = some t := by
  unfold resolveSelector at hres
  by_cases h0 : sel.isEmpty
  · rw [if_pos h0] at hres; exact absurd hres (by simp)
  rw [if_neg h0] at hres
  by_cases h1 : qStartsWith sel (q "@name:") = true
  · rw [if_pos h1] at hres
    dsimp only at hres
    rcases hb : byName F (sel.drop 6) with _ | w2
    · rw [hb] at hres; exact absurd hres (by simp)
    · rw [hb] at hres
      injection hres with hres
      rw [← hres]
      exact byNameAux_valid F (sel.drop 6) F 0 (fun k t hk => by simpa using hk) w2 hb
  rw [if_neg h1] at hres
  by_cases h2 : qStartsWith sel (q "@class:") = true
  · rw [if_pos h2] at hres
    dsimp only at hres
    rcases hb : byClass F (sel.drop 7) with _ | w2
    · rw [hb] at hres; exact absurd hres (by simp)
    · rw [hb] at hres
      injection hres with hres
      rw [← hres]
      exact byClassAux_valid F (sel.drop 7) F 0 (fun k t hk => by simpa using hk) w2 hb
  rw [if_neg h2] at hres
  by_cases h3 : qStartsWith sel (q "@text:") = true
  · rw [if_pos h3] at hres
    dsimp only at hres
    rcases hb : byText F (sel.drop 6) with _ | w2
    · rw [hb] at hres; exact absurd hres (by simp)
    · rw [hb] at hres
      injection hres with hres
      rw [← hres]
      exact searchListAll_find_valid F (fun c => widgetMatchesText c.2 (sel.drop 6)) w2 hb
  rw [if_neg h3] at hres
  by_cases h4 : qStartsWith sel (q "@accessible:") = true
  · rw [if_pos h4] at hres
    dsimp only at hres
    rcases hb : byAccessible F (sel.drop 12) with _ | w2
    · rw [hb] at hres; exact absurd hres (by simp)
    · rw [hb] at hres
      injection hres with hres
      rw [← hres]
      exact searchListAll_find_valid F (fun c => c.2.attrs.accessibleName = sel.drop 12) w2 hb
  rw [if_neg h4] at hres
  by_cases h5 : qStartsWith sel (q "@") = true
  · rw [if_pos h5] at hres
    dsimp only at hres
    rcases hb : env.dialogButtonForRole (qToLower (sel.drop 1)) with _ | w2
    · rw [hb] at hres; exact absurd hres (by simp)
    · rw [hb] at hres
      injection hres with hres
      rw [← hres]
      exact henv _ w2 hb
  rw [if_neg h5] at hres
  rcases hb : byPath F sel with _ | w2
  · rw [hb] at hres; exact absurd hres (by simp)
  · rw [hb] at hres
    injection hres with hres
    rw [← hres]
    exact byPath_valid F sel w2 hb

/-- C7 is false as stated by the specification: in a forest where two
sibling widgets share an object name, `@class:C` resolves to the second
sibling at position `[0, 1]`, `pathFor` emits the path `r/a`, and
re-resolving that path returns the first sibling `[0, 0]`. -/
theorem find_pathFor_find_counterexample :
    (find emptyFinderEnv forestCE [] (q "@class:C")).1.widget = some [0, 1] ∧
    pathFor forestCE [0, 1] = q "r/a" ∧
    (find emptyFinderEnv forestCE
        (find emptyFinderEnv forestCE [] (q "@class:C")).2
        (pathFor forestCE [0, 1])).1.widget = some [0, 0] ∧
    ([0, 0] : WId) ≠ [0, 1] := by
  refine ⟨?_, ?_, ?_, by decide⟩ <;>
    simp [find, resolveSelector, byClass, byClassAux, byName, byNameAux, byText, byAccessible,
      qFindChildTree, qFindChildList, firstDirect, preorderTree, preorderList, searchListAll,
      searchListAux, widgetMatchesText, forestCE, emptyFinderEnv, qStartsWith, q, pathFor,
      pathForNames, pathForNamesAux, pathSegmentName, getW, getInTree, splitPathParts, byPath,
      findTopLevel, navigatePath, efFindChild, parseIndexSuffix, matchesBase, nthMatch,
      digitsVal, natToQStr, classIndexCountAux, qToLower, List.isPrefixOf, List.intercalate,
      WTree.attrs, WTree.children, WTree.objectName, WTree.className, List.splitOn,
      List.splitOnP, List.splitOnP.go]

/-- C7 (amended): in a forest whose object names are pairwise distinct,
non-empty, separator-free, not the wildcard, not in index notation, not
`@`-prefixed and disjoint from all class names — and when the toolkit's
dialog-button lookup only yields live widgets — every selector that
`find` resolves to a widget round-trips: a second `find`, carried out
with the cache produced by the first and applied to the `pathFor` path
of the found widget, returns the same widget. -/
theorem find_pathFor_find_roundtrip (env : FinderEnv) (F : List WTree) (sel : QStr) (w : WId)
    (hok : ForestOK F)
    (henv : ∀ role w2, env.dialogButtonForRole role = some w2 →
      w2 ≠ [] ∧ ∃ t2, getW F w2 = some t2)
    (hfind : (find env F [] sel).1.widget = some w) :
    (find env F (find env F [] sel).2 (pathFor F w)).1.widget = some w := by
  unfold find at hfind
  rw [List.find?_nil] at hfind
  dsimp only at hfind
  rcases hres : resolveSelector env F sel with w' | e
  · rw [hres] at hfind
    dsimp only at hfind
    injection hfind with hfind
    have hres' : resolveSelector env F sel = .ok w := by rw [hres, hfind]
    obtain ⟨hwne, t, hwt⟩ := resolveSelector_ok_valid env F sel w henv hres'
    have hcache : (find env F [] sel).2 = [(sel, w)] := by
      unfold find
      rw [List.find?_nil]
      dsimp only
      rw [hres']
      rfl
    rw [hcache]
    unfold find
    rcases hcf : ([((sel, w) : QStr × WId)].find? (fun kv => kv.1 = pathFor F w)) with _ | kv
    · rw [hcf]
      dsimp only
      rw [resolveSelector_pathFor env F hok w t hwt hwne]
    · rw [hcf]
      dsimp only
      have hkv := List.mem_of_find?_eq_some hcf
      simp only [List.mem_cons, List.not_mem_nil, or_false] at hkv
      rw [hkv]
  · rw [hres] at hfind
    dsimp only at hfind
    exact absurd hfind (by simp)

/-- Witness: in the two-widget forest with distinct names, the selector
`@name:w1` resolves to `[0, 0]` and re-resolving its emitted path with
the updated cache returns the same widget. -/
theorem find_pathFor_find_roundtrip_witness :
    ForestOK forestRT ∧
    (find emptyFinderEnv forestRT [] (q "@name:w1")).1.widget = some [0, 0] ∧
    (find emptyFinderEnv forestRT
        (find emptyFinderEnv forestRT [] (q "@name:w1")).2
        (pathFor forestRT [0, 0])).1.widget = some [0, 0] := by
  have hok : ForestOK forestRT := by
    unfold ForestOK
    simp only [searchListAll, searchListAux, preorderTree, preorderList, forestRT,
      WTree.attrs, WTree.children, WTree.objectName, WTree.className]
    decide
  have hfind : (find emptyFinderEnv forestRT [] (q "@name:w1")).1.widget = some [0, 0] := by
    simp [find, resolveSelector, byName, byNameAux, qFindChildTree, qFindChildList,
      firstDirect, preorderTree, preorderList, forestRT, emptyFinderEnv, qStartsWith, q,
      pathFor, pathForNames, pathForNamesAux, pathSegmentName, getW, getInTree,
      parseIndexSuffix, List.isPrefixOf, List.intercalate, WTree.attrs, WTree.children,
      WTree.objectName, WTree.className, List.splitOn, List.splitOnP, List.splitOnP.go]
  exact ⟨hok, hfind,
    find_pathFor_find_roundtrip emptyFinderEnv forestRT (q "@name:w1") [0, 0]
      hok (fun _ _ h => Option.noConfusion h) hfind⟩

end Widgeteer
